import Mathlib

/-!
Shallow embedding of the pstake liquid-staking IBC keeper:
the epoch-driven workflows (deposit, LSM, undelegation, validator
lifecycle, rewards, rebalance) and the IBC transfer callback handlers
(`OnRecvIBCTransferPacket`, `OnAcknowledgementIBCTransferPacket`,
`OnTimeoutIBCTransferPacket`), translated from the Go keeper source.

Amounts are modelled as `Int` (sdk.Int); decimal fee rates as an integer
numerator over `10^18` (sdk.LegacyDec is an 18-decimal fixed-point value).
External collaborators (the message router, the ICA transaction submitter,
the redelegation allocator, the bank transfer used for protocol fees) are
modelled as an explicit environment of pure functions, and each outbound
submission is recorded in the state so that theorems can speak about the
messages a workflow generated.
-/

/-- The fixed-point denominator of sdk.LegacyDec (18 decimal places). -/
def decUnit : Int := 10 ^ 18

/-- A coin: denomination plus integer amount. -/
structure Coin where
  denom : String
  amount : Int
  deriving DecidableEq, Repr

/-- Channel state of an interchain account (ICAAccount.ChannelState). -/
inductive ChannelState where
  | creating
  | created
  deriving DecidableEq, Repr

/-- An interchain account descriptor (ICAAccount). -/
structure ICAAccount where
  address : String
  owner : String
  balance : Coin
  channelState : ChannelState
  deriving DecidableEq, Repr

/-- A host-chain validator entry. -/
structure Validator where
  operatorAddress : String
  delegatedAmount : Int
  weight : Int
  /-- Zero means the validator is not being force-unbonded. -/
  unbondingEpoch : Int
  deriving DecidableEq, Repr

/-- A registered host chain (the fields the embedded code reads). -/
structure HostChain where
  chainId : String
  connectionId : String
  channelId : String
  active : Bool
  hostDenom : String
  delegationAccount : ICAAccount
  rewardsAccount : Option ICAAccount
  validators : List Validator
  unbondingFactor : Int
  /-- Params.RestakeFee as an integer numerator over `decUnit`. -/
  restakeFeeNum : Nat
  /-- Flags.Lsm -/
  flagsLsm : Bool
  /-- Whether RewardParams is configured (non-nil). -/
  hasRewardParams : Bool
  deriving DecidableEq, Repr

/-- Deposit lifecycle states. -/
inductive DepositState where
  | pending
  | sent
  | received
  | delegating
  deriving DecidableEq, Repr

/-- A per-(chain, epoch) user deposit record. -/
structure Deposit where
  chainId : String
  epoch : Int
  amount : Coin
  state : DepositState
  ibcSequenceId : String
  deriving DecidableEq, Repr

/-- LSM deposit lifecycle states. -/
inductive LSMDepositState where
  | pending
  | sent
  | received
  | untokenizing
  deriving DecidableEq, Repr

/-- A tokenized-share (LSM) deposit record, keyed by a unique id. -/
structure LSMDeposit where
  id : Nat
  chainId : String
  ibcDenom : String
  shares : Int
  state : LSMDepositState
  ibcSequenceId : String
  deriving DecidableEq, Repr

/-- Unbonding lifecycle states. -/
inductive UnbondingState where
  | pending
  | initiated
  | maturing
  | matured
  | claimable
  | failed
  deriving DecidableEq, Repr

/-- A per-(chain, epoch-bucket) aggregated unbonding record. -/
structure Unbonding where
  chainId : String
  epochNumber : Int
  unbondAmount : Coin
  burnAmount : Coin
  state : UnbondingState
  ibcSequenceId : String
  deriving DecidableEq, Repr

/-- A fail-safe force-unbond record, keyed by (chain, validator, epoch). -/
structure ValidatorUnbonding where
  chainId : String
  epochNumber : Int
  validatorAddress : String
  amount : Coin
  ibcSequenceId : String
  deriving DecidableEq, Repr

/-- Redelegation transaction states. -/
inductive RedelegateTxState where
  | sent
  | acked
  deriving DecidableEq, Repr

/-- A record of one submitted redelegation message. -/
structure RedelegateTx where
  chainId : String
  ibcSequenceId : String
  state : RedelegateTxState
  deriving DecidableEq, Repr

/-- The domain events the embedded handlers and workflows emit. -/
inductive Event where
  | unbondingMaturedReceived (chainId : String) (epoch : Int) (amount : Int)
  | validatorUnbondingMaturedReceived (chainId : String) (amount : Int)
  | autocompoundRewardsReceived (chainId : String) (amount fee : Int)
  | stakingDepositTransferReceived (chainId seqId : String)
  | lsmDepositTransferReceived (chainId seqId : String)
  | stakingDepositTransferTimeout (chainId seqId : String)
  | lsmDepositTransferTimeout (chainId seqId : String)
  | delegationWorkflow (chainId : String) (epoch : Int) (amount : Int) (seqId : String)
  | undelegationWorkflow (chainId : String) (epoch : Int) (seqId : String)
  | unsuccessfulUndelegationInitiation (chainId : String) (epoch : Int)
  | validatorUndelegationWorkflow (chainId validator : String) (epoch : Int) (seqId : String)
  | rewardsWorkflow (chainId : String) (epoch : Int)
  | lsmWorkflow (chainId : String) (totalShares : Int)
  deriving DecidableEq, Repr

/-- An outbound IBC transfer message (ibctransfertypes.MsgTransfer). -/
structure TransferMsg where
  sourcePort : String
  sourceChannel : String
  token : Coin
  sender : String
  receiver : String
  timeoutTimestamp : Int
  memo : String
  deriving DecidableEq, Repr

/-- A remote message submitted through an ICA transaction. -/
inductive RemoteMsg where
  | undelegate (delegator validator : String) (amount : Coin)
  | withdrawReward (delegator validator : String)
  | redelegate (delegator srcValidator dstValidator : String) (amount : Coin)
  deriving DecidableEq, Repr

/-- The payload of one outbound submission. -/
inductive SubPayload where
  | transfer (msg : TransferMsg)
  | ica (connectionId owner : String) (msgs : List RemoteMsg)
  deriving DecidableEq, Repr

/-- One recorded outbound submission, tagged with the host chain it
targets and (for deposit transfers) the deposit record that caused it. -/
structure Submission where
  chainId : String
  depositKey : Option (String × Int)
  payload : SubPayload
  deriving DecidableEq, Repr

/-- The keeper's durable state, plus instrumentation lists recording the
outbound submissions, fee transfers, balance queries and exchange-value
recomputations the embedded code performs. -/
structure KeeperState where
  hostChains : List HostChain
  deposits : List Deposit
  lsmDeposits : List LSMDeposit
  unbondings : List Unbonding
  validatorUnbondings : List ValidatorUnbonding
  redelegateTxs : List RedelegateTx
  events : List Event
  submissions : List Submission
  feeSends : List (Int × String)
  cValueUpdates : List String
  balanceQueries : List String
  /-- Current delegation-epoch number (GetEpochNumber for the
  delegation epoch identifier). -/
  delegationEpoch : Int
  /-- Module addresses and parameters read by the handlers. -/
  depositModuleAddr : String
  undelegationModuleAddr : String
  feeAddress : String
  blockTimeNanos : Int
  deriving DecidableEq, Repr

/-- Errors the callback handlers can return. -/
inductive HandlerError where
  | transportError
  | ackUnmarshalFailed
  | invalidAcknowledgement
  | dataUnmarshalFailed
  | parsingAmount
  | depositNotFound
  | failedFeeSend
  | hostChainNotRegistered (chainId : String)
  deriving DecidableEq, Repr

/-- Outcome of routing one MsgTransfer through the message router:
the handler may fail (nothing sent), succeed but the response may fail
to decode (the transfer was sent but the sequence is unknown to the
caller), or succeed with a packet sequence. -/
inductive TransferOutcome where
  | handlerFailed
  | sentNoDecode
  | sent (sequence : Nat)
  deriving DecidableEq, Repr

/-- The external collaborators, modelled as pure functions:
message routing, ICA batch submission, the undelegation allocator,
the redelegation allocator, validator-weight redistribution, the bank
send used for protocol fees, and the two balance queries. -/
structure Env where
  transferResult : TransferMsg → TransferOutcome
  icaResult : String → String → List RemoteMsg → Option String
  genUndelegateMessages : HostChain → Int → Option (List RemoteMsg)
  genRedelegateMsgs : HostChain → List RemoteMsg
  redistributeValidatorWeight : HostChain → Validator → HostChain
  sendProtocolFeeOk : Int → String → Bool
  queryRewardsBalanceOk : String → Bool
  queryNonCompoundableBalanceOk : String → Bool

/-- GetTransactionSequenceID: the sequence identifier derived from the
outbound channel id and the numeric packet sequence. -/
def mkSeqId (channel : String) (sequence : Nat) : String :=
  channel ++ "-sequence-" ++ toString sequence

/-- Keyed overwrite (or insert) on a list-modelled KV store: replace the
entries matching the key predicate, or append when none matches. Every
`Set` operation of the keeper instantiates this with equality on the
record type's key. -/
def upsert {A : Type} (p : A -> Bool) (x : A) (l : List A) : List A :=
  if l.any p then l.map (fun e => if p e then x else e) else l ++ [x]

/-- GetHostChain: look up a host chain by chain id. -/
def findChain (s : KeeperState) (chainId : String) : Option HostChain :=
  s.hostChains.find? (fun hc => hc.chainId == chainId)

/-- GetHostChainFromHostDenom: look up a host chain by host denom. -/
def findChainByHostDenom (s : KeeperState) (denom : String) : Option HostChain :=
  s.hostChains.find? (fun hc => hc.hostDenom == denom)

/-- SetHostChain: keyed overwrite (or insert) by chain id. -/
def setHostChain (s : KeeperState) (hc : HostChain) : KeeperState :=
  { s with hostChains := upsert (fun e => e.chainId == hc.chainId) hc s.hostChains }

/-- GetDepositForChainAndEpoch: deposits are keyed by (chain id, epoch). -/
def getDeposit (s : KeeperState) (chainId : String) (epoch : Int) : Option Deposit :=
  s.deposits.find? (fun d => d.chainId == chainId && d.epoch == epoch)

/-- SetDeposit: keyed overwrite (or insert) by (chain id, epoch). -/
def setDeposit (s : KeeperState) (d : Deposit) : KeeperState :=
  { s with deposits := upsert (fun e => e.chainId == d.chainId && e.epoch == d.epoch) d s.deposits }

/-- DeleteDeposit: remove the record with the given key. -/
def deleteDeposit (s : KeeperState) (d : Deposit) : KeeperState :=
  let l := s.deposits.filter (fun e => !(e.chainId == d.chainId && e.epoch == d.epoch))
  { s with deposits := l }

/-- GetDepositsWithSequenceID: all deposits carrying the sequence id. -/
def depositsWithSeqId (s : KeeperState) (seqId : String) : List Deposit :=
  s.deposits.filter (fun d => d.ibcSequenceId == seqId)

/-- GetLSMDepositsFromIbcSequenceID. -/
def lsmDepositsWithSeqId (s : KeeperState) (seqId : String) : List LSMDeposit :=
  s.lsmDeposits.filter (fun d => d.ibcSequenceId == seqId)

/-- SetLSMDeposit: keyed overwrite (or insert) by unique id. -/
def setLSMDeposit (s : KeeperState) (d : LSMDeposit) : KeeperState :=
  { s with lsmDeposits := upsert (fun e => e.id == d.id) d s.lsmDeposits }

/-- GetUnbonding: unbondings are keyed by (chain id, epoch number). -/
def getUnbonding (s : KeeperState) (chainId : String) (epoch : Int) : Option Unbonding :=
  s.unbondings.find? (fun u => u.chainId == chainId && u.epochNumber == epoch)

/-- SetUnbonding: keyed overwrite (or insert) by (chain id, epoch number). -/
def setUnbonding (s : KeeperState) (u : Unbonding) : KeeperState :=
  { s with unbondings := upsert (fun e => e.chainId == u.chainId && e.epochNumber == u.epochNumber) u s.unbondings }

/-- FilterUnbondings. -/
def filterUnbondings (s : KeeperState) (p : Unbonding → Bool) : List Unbonding :=
  s.unbondings.filter p

/-- GetValidatorUnbonding, keyed by (chain, validator, epoch). -/
def getValidatorUnbonding (s : KeeperState) (chainId validator : String)
    (epoch : Int) : Option ValidatorUnbonding :=
  s.validatorUnbondings.find?
    (fun v => v.chainId == chainId && v.validatorAddress == validator && v.epochNumber == epoch)

/-- SetValidatorUnbonding: keyed overwrite (or insert). -/
def setValidatorUnbonding (s : KeeperState) (v : ValidatorUnbonding) : KeeperState :=
  let sameKey : ValidatorUnbonding -> Bool := fun e =>
    e.chainId == v.chainId && e.validatorAddress == v.validatorAddress
      && e.epochNumber == v.epochNumber
  { s with validatorUnbondings := upsert sameKey v s.validatorUnbondings }

/-- SetRedelegationTx: records are appended per submitted message. -/
def setRedelegationTx (s : KeeperState) (r : RedelegateTx) : KeeperState :=
  { s with redelegateTxs := s.redelegateTxs ++ [r] }

/-- Emit one event. -/
def emitEvent (s : KeeperState) (e : Event) : KeeperState :=
  { s with events := s.events ++ [e] }

/-- Record one outbound submission. -/
def recordSubmission (s : KeeperState) (sub : Submission) : KeeperState :=
  { s with submissions := s.submissions ++ [sub] }

/-- The decoded fungible-token packet data. The amount is carried as a
string on the wire; `amount = none` models a string that
`sdk.NewIntFromString` fails to parse. -/
structure PacketData where
  denom : String
  sender : String
  receiver : String
  amount : Option Int
  memo : String
  deriving DecidableEq, Repr

/-- An IBC packet as seen by the transfer hooks. `data = none` models
packet bytes that fail to unmarshal as FungibleTokenPacketData. -/
structure Packet where
  sequence : Nat
  sourceChannel : String
  destinationChannel : String
  data : Option PacketData
  deriving DecidableEq, Repr

/-- sdk.LegacyDec.MulInt followed by TruncateInt: the fee-rate numerator
times the amount, divided by the fixed-point unit, truncated toward zero. -/
def restakeFeeTrunc (feeNum : Nat) (amount : Int) : Int :=
  Int.tdiv (amount * (feeNum : Int)) decUnit

/-- Whether the packet sender is the chain's rewards ICA address
(false when no rewards account is configured). -/
def senderIsRewardsAccount (hc : HostChain) (sender : String) : Bool :=
  match hc.rewardsAccount with
  | some ra => sender == ra.address
  | none => false

/-- Branch of OnRecvIBCTransferPacket handling unbonding transfers
(sender is the delegation account, receiver the undelegation module
account, empty memo): every MATURED unbonding of the chain becomes
CLAIMABLE with its sequence id cleared, one event per record. -/
def recvUnbondingBranch (s : KeeperState) (hc : HostChain) (d : PacketData) : KeeperState :=
  if d.sender == hc.delegationAccount.address
      && d.receiver == s.undelegationModuleAddr && d.memo == "" then
    let unbondings := filterUnbondings s
      (fun u => u.chainId == hc.chainId && u.state == UnbondingState.matured)
    unbondings.foldl
      (fun acc u =>
        let u' := { u with ibcSequenceId := "", state := UnbondingState.claimable }
        emitEvent (setUnbonding acc u')
          (Event.unbondingMaturedReceived hc.chainId u.epochNumber u.unbondAmount.amount))
      s
  else s

/-- Branch of OnRecvIBCTransferPacket handling total validator
unbondings (sender is the delegation account, receiver the deposit
module account, empty memo): the amount is credited to the current
delegation epoch's deposit record; a missing record or an unparseable
amount fails the handler. -/
def recvValidatorUnbondingBranch (s : KeeperState) (hc : HostChain) (d : PacketData) :
    Except HandlerError KeeperState :=
  if d.sender == hc.delegationAccount.address
      && d.receiver == s.depositModuleAddr && d.memo == "" then
    match getDeposit s hc.chainId s.delegationEpoch with
    | none => .error HandlerError.depositNotFound
    | some deposit =>
      match d.amount with
      | none => .error HandlerError.parsingAmount
      | some amt =>
        let deposit' := { deposit with amount := { deposit.amount with amount := deposit.amount.amount + amt } }
        .ok (emitEvent (setDeposit s deposit')
          (Event.validatorUnbondingMaturedReceived hc.chainId amt))
  else .ok s

/-- Branch of OnRecvIBCTransferPacket handling autocompounding rewards
(sender is the rewards account, receiver the deposit module account,
empty memo): the truncated protocol fee is sent to the fee address, the
remainder is credited to the current epoch's deposit record, and the
chain's exchange value is recomputed. -/
def recvAutocompoundBranch (env : Env) (s : KeeperState) (hc : HostChain) (d : PacketData) :
    Except HandlerError KeeperState :=
  if senderIsRewardsAccount hc d.sender
      && d.receiver == s.depositModuleAddr && d.memo == "" then
    match d.amount with
    | none => .error HandlerError.parsingAmount
    | some amt =>
      let fee := restakeFeeTrunc hc.restakeFeeNum amt
      if env.sendProtocolFeeOk fee s.feeAddress then
        let s := { s with feeSends := s.feeSends ++ [(fee, s.feeAddress)] }
        match getDeposit s hc.chainId s.delegationEpoch with
        | none => .error HandlerError.depositNotFound
        | some deposit =>
          let deposit' := { deposit with amount := { deposit.amount with amount := deposit.amount.amount + (amt - fee) } }
          let s := setDeposit s deposit'
          let s := { s with cValueUpdates := s.cValueUpdates ++ [hc.chainId] }
          .ok (emitEvent s (Event.autocompoundRewardsReceived hc.chainId amt fee))
      else .error HandlerError.failedFeeSend
  else .ok s

/-- OnRecvIBCTransferPacket: classify a successfully received inbound
transfer by (sender, receiver, memo) against the chain matched by host
denom, and run the three settlement branches in order. -/
def OnRecvIBCTransferPacket (env : Env) (s : KeeperState) (packet : Packet)
    (transferAckSuccess : Bool) : Except HandlerError KeeperState :=
  if !transferAckSuccess then .ok s
  else
    match packet.data with
    | none => .error HandlerError.dataUnmarshalFailed
    | some d =>
      match findChainByHostDenom s d.denom with
      | none => .ok s
      | some hc => do
        let s := recvUnbondingBranch s hc d
        let s ← recvValidatorUnbondingBranch s hc d
        recvAutocompoundBranch env s hc d

/-- Modelled from the spec: `UpdateLSMDepositsStateAndSequence` (not in
the given sources) sets the given records' state and sequence id in the
store. -/
def updateLSMDepositsStateAndSequence (s : KeeperState) (ds : List LSMDeposit)
    (st : LSMDepositState) (seqId : String) : KeeperState :=
  ds.foldl (fun acc d => setLSMDeposit acc { d with state := st, ibcSequenceId := seqId }) s

/-- Per-deposit settlement step of the acknowledgement handler: the
deposit becomes RECEIVED with its sequence id cleared, the chain's
tracked delegation-account balance grows by the transferred amount, and
one event is emitted; a deposit on an unregistered chain fails the
handler. -/
def ackDepositStep (seqId : String) (amt : Int) (s : KeeperState) (d : Deposit) :
    Except HandlerError KeeperState :=
  match findChain (setDeposit s { d with ibcSequenceId := "", state := DepositState.received })
      d.chainId with
  | none => .error (HandlerError.hostChainNotRegistered d.chainId)
  | some hc =>
    .ok (emitEvent
      (setHostChain
        (setDeposit s { d with ibcSequenceId := "", state := DepositState.received })
        { hc with delegationAccount := { hc.delegationAccount with
            balance := { hc.delegationAccount.balance with
              amount := hc.delegationAccount.balance.amount + amt } } })
      (Event.stakingDepositTransferReceived hc.chainId seqId))

/-- Per-LSM-deposit event step of the acknowledgement handler. -/
def ackLSMDepositEventStep (seqId : String) (s : KeeperState) (d : LSMDeposit) :
    Except HandlerError KeeperState :=
  match findChain s d.chainId with
  | none => .error (HandlerError.hostChainNotRegistered d.chainId)
  | some hc => .ok (emitEvent s (Event.lsmDepositTransferReceived hc.chainId seqId))

/-- OnAcknowledgementIBCTransferPacket: on a successful ack whose packet
sender is the deposit module account, settle every Deposit and
LSMDeposit carrying the packet's sequence identifier. A transport
error, malformed or failed ack, undecodable packet data or unparseable
amount is a propagated error. -/
def OnAcknowledgementIBCTransferPacket (s : KeeperState) (packet : Packet)
    (ack : Option Bool) (transferAckErr : Bool) : Except HandlerError KeeperState :=
  if transferAckErr then .error HandlerError.transportError
  else
    match ack with
    | none => .error HandlerError.ackUnmarshalFailed
    | some ackSuccess =>
      if !ackSuccess then .error HandlerError.invalidAcknowledgement
      else
        match packet.data with
        | none => .error HandlerError.dataUnmarshalFailed
        | some d =>
          match d.amount with
          | none => .error HandlerError.parsingAmount
          | some amt =>
            if d.sender == s.depositModuleAddr then do
              let seqId := mkSeqId packet.sourceChannel packet.sequence
              let s ← (depositsWithSeqId s seqId).foldlM (ackDepositStep seqId amt) s
              let lsm := lsmDepositsWithSeqId s seqId
              let s := updateLSMDepositsStateAndSequence s lsm LSMDepositState.received ""
              lsm.foldlM (ackLSMDepositEventStep seqId) s
            else .ok s

/-- Modelled from the spec: `RevertDepositsState` (not in the given
sources) reverts the given deposits to their pending pre-send state —
state PENDING with the sequence identifier cleared. -/
def revertDepositsState (s : KeeperState) (ds : List Deposit) : KeeperState :=
  ds.foldl (fun acc d =>
    setDeposit acc { d with state := DepositState.pending, ibcSequenceId := "" }) s

/-- Modelled from the spec: `RevertLSMDepositsState` (not in the given
sources) reverts the given LSM deposits to their pending pre-send state. -/
def revertLSMDepositsState (s : KeeperState) (ds : List LSMDeposit) : KeeperState :=
  ds.foldl (fun acc d =>
    setLSMDeposit acc { d with state := LSMDepositState.pending, ibcSequenceId := "" }) s

/-- Per-deposit timeout event step. -/
def timeoutDepositEventStep (seqId : String) (s : KeeperState) (d : Deposit) :
    Except HandlerError KeeperState :=
  match findChain s d.chainId with
  | none => .error (HandlerError.hostChainNotRegistered d.chainId)
  | some hc => .ok (emitEvent s (Event.stakingDepositTransferTimeout hc.chainId seqId))

/-- Per-LSM-deposit timeout event step. -/
def timeoutLSMDepositEventStep (seqId : String) (s : KeeperState) (d : LSMDeposit) :
    Except HandlerError KeeperState :=
  match findChain s d.chainId with
  | none => .error (HandlerError.hostChainNotRegistered d.chainId)
  | some hc => .ok (emitEvent s (Event.lsmDepositTransferTimeout hc.chainId seqId))

/-- OnTimeoutIBCTransferPacket: when the timed-out packet was sent by
the deposit module account, revert every Deposit and LSMDeposit
carrying the packet's sequence identifier to its pending pre-send
state, emitting one event per record. -/
def OnTimeoutIBCTransferPacket (s : KeeperState) (packet : Packet)
    (transferTimeoutErr : Bool) : Except HandlerError KeeperState :=
  if transferTimeoutErr then .error HandlerError.transportError
  else
    match packet.data with
    | none => .error HandlerError.dataUnmarshalFailed
    | some d =>
      if d.sender == s.depositModuleAddr then do
        let seqId := mkSeqId packet.sourceChannel packet.sequence
        let deposits := depositsWithSeqId s seqId
        let s := revertDepositsState s deposits
        let s ← deposits.foldlM (timeoutDepositEventStep seqId) s
        let lsm := lsmDepositsWithSeqId s seqId
        let s := revertLSMDepositsState s lsm
        lsm.foldlM (timeoutLSMDepositEventStep seqId) s
      else .ok s

/-- Modelled from the spec: the fixed IBC transfer timeout duration
(`IBCTimeoutTimestamp`, in nanoseconds; its value is not given in the
sources — the timeout is block time plus this fixed duration). -/
def ibcTimeoutNanos : Int := 1800 * 1000000000

/-- Modelled from the spec: `IsUnbondingEpoch` — whether the epoch
matches the chain's unbonding periodicity (the unbonding factor). -/
def IsUnbondingEpoch (factor epoch : Int) : Bool :=
  0 < factor && epoch % factor == 0

/-- Modelled from the spec: `CurrentUnbondingEpoch` — the epoch bucket
an unbonding at this epoch belongs to (the next epoch matching the
chain's unbonding periodicity). -/
def CurrentUnbondingEpoch (factor epoch : Int) : Int :=
  if 0 < factor && epoch % factor == 0 then epoch
  else epoch + (factor - epoch % factor)

/-- Modelled from the spec: `GetPendingDepositsBeforeEpoch` (not in the
given sources) — the pending deposits whose epoch is at most the given
epoch. -/
def pendingDepositsBeforeEpoch (s : KeeperState) (epoch : Int) : List Deposit :=
  s.deposits.filter
    (fun d => d.state == DepositState.pending && decide (d.epoch ≤ epoch))

/-- One iteration of the DepositWorkflow loop: skip deposits of
unregistered chains; prune non-positive deposits of past epochs; skip
inactive chains; otherwise submit one outbound transfer and, when the
submission yields a decodable sequence, mark the deposit SENT with the
derived sequence identifier. -/
def depositStep (env : Env) (epoch : Int) (s : KeeperState) (d : Deposit) : KeeperState :=
  match findChain s d.chainId with
  | none => s
  | some hc =>
    if d.amount.amount ≤ 0 then
      if d.epoch < epoch then deleteDeposit s d else s
    else if !hc.active then s
    else
      let msg : TransferMsg :=
        { sourcePort := "transfer"
          sourceChannel := hc.channelId
          token := d.amount
          sender := s.depositModuleAddr
          receiver := hc.delegationAccount.address
          timeoutTimestamp := s.blockTimeNanos + ibcTimeoutNanos
          memo := "" }
      match env.transferResult msg with
      | .handlerFailed => s
      | .sentNoDecode =>
        recordSubmission s ⟨hc.chainId, some (d.chainId, d.epoch), .transfer msg⟩
      | .sent seq =>
        let s := recordSubmission s ⟨hc.chainId, some (d.chainId, d.epoch), .transfer msg⟩
        let d' := { d with state := DepositState.sent
                           ibcSequenceId := mkSeqId hc.channelId seq }
        let s := setDeposit s d'
        emitEvent s (Event.delegationWorkflow hc.chainId d.epoch d.amount.amount d'.ibcSequenceId)

/-- DepositWorkflow: run the deposit step over every pending deposit
whose epoch is at most the current epoch. -/
def DepositWorkflow (env : Env) (epoch : Int) (s : KeeperState) : KeeperState :=
  (pendingDepositsBeforeEpoch s epoch).foldl (depositStep env epoch) s

/-- Modelled from the spec: `GetTransferableLSMDeposits` (not in the
given sources) — the chain's LSM deposit records eligible for transfer
(still pending). -/
def transferableLSMDeposits (s : KeeperState) (chainId : String) : List LSMDeposit :=
  s.lsmDeposits.filter
    (fun d => d.chainId == chainId && d.state == LSMDepositState.pending)

/-- One iteration of the LSMWorkflow inner loop: transfer one LSM
deposit's shares as its own message; on a decodable response mark it
SENT with the sequence id and add its shares to the running total. -/
def lsmDepositStep (env : Env) (hc : HostChain) (acc : KeeperState × Int)
    (d : LSMDeposit) : KeeperState × Int :=
  let s := acc.1
  let msg : TransferMsg :=
    { sourcePort := "transfer"
      sourceChannel := hc.channelId
      token := { denom := d.ibcDenom, amount := d.shares }
      sender := s.depositModuleAddr
      receiver := hc.delegationAccount.address
      timeoutTimestamp := s.blockTimeNanos + ibcTimeoutNanos
      memo := "" }
  match env.transferResult msg with
  | .handlerFailed => acc
  | .sentNoDecode => (recordSubmission s ⟨hc.chainId, none, .transfer msg⟩, acc.2)
  | .sent seq =>
    let s := recordSubmission s ⟨hc.chainId, none, .transfer msg⟩
    let s := updateLSMDepositsStateAndSequence s [d] LSMDepositState.sent
      (mkSeqId hc.channelId seq)
    (s, acc.2 + d.shares)

/-- One iteration of the LSMWorkflow chain loop: skipped for inactive or
non-LSM chains; otherwise transfers every eligible LSM deposit and emits
the per-chain workflow event with the total transferred shares. -/
def lsmChainStep (env : Env) (s : KeeperState) (hc : HostChain) : KeeperState :=
  if !hc.active || !hc.flagsLsm then s
  else
    let acc := (transferableLSMDeposits s hc.chainId).foldl (lsmDepositStep env hc) (s, 0)
    emitEvent acc.1 (Event.lsmWorkflow hc.chainId acc.2)

/-- LSMWorkflow over all host chains. -/
def LSMWorkflow (env : Env) (s : KeeperState) : KeeperState :=
  s.hostChains.foldl (lsmChainStep env) s

/-- One iteration of the UndelegationWorkflow loop: fires only for
active chains on their unbonding epochs with a positive unbonding
record; a failure to generate or submit the undelegate batch marks the
record FAILED and emits an event; success marks it INITIATED with the
new sequence id. -/
def undelegationStep (env : Env) (epoch : Int) (s : KeeperState) (hc : HostChain) : KeeperState :=
  if !hc.active then s
  else if !IsUnbondingEpoch hc.unbondingFactor epoch then s
  else
    match getUnbonding s hc.chainId (CurrentUnbondingEpoch hc.unbondingFactor epoch) with
    | none => s
    | some u =>
      if !(0 < u.unbondAmount.amount) then s
      else
        match env.genUndelegateMessages hc u.unbondAmount.amount with
        | none =>
          emitEvent (setUnbonding s { u with state := UnbondingState.failed })
            (Event.unsuccessfulUndelegationInitiation hc.chainId epoch)
        | some msgs =>
          match env.icaResult hc.connectionId hc.delegationAccount.owner msgs with
          | none =>
            emitEvent (setUnbonding s { u with state := UnbondingState.failed })
              (Event.unsuccessfulUndelegationInitiation hc.chainId epoch)
          | some seqId =>
            let s := recordSubmission s
              ⟨hc.chainId, none, .ica hc.connectionId hc.delegationAccount.owner msgs⟩
            let s := setUnbonding s
              { u with ibcSequenceId := seqId, state := UnbondingState.initiated }
            emitEvent s (Event.undelegationWorkflow hc.chainId epoch seqId)

/-- UndelegationWorkflow over all host chains. -/
def UndelegationWorkflow (env : Env) (epoch : Int) (s : KeeperState) : KeeperState :=
  s.hostChains.foldl (undelegationStep env epoch) s

/-- Modelled from the spec: the number of epochs a validator may stay in
an unbonding state before being force-unbonded
(`UnbondingStateEpochLimit`; the constant's value is not given in the
sources). -/
def UnbondingStateEpochLimit : Int := 4

/-- One iteration of the ValidatorUndelegationWorkflow validator loop.
The boolean accumulator component records that the whole workflow has
been aborted (the source returns from the workflow on a failed ICA
submission). -/
def vuValidatorStep (env : Env) (epoch : Int) (hc : HostChain)
    (acc : KeeperState × Bool) (v : Validator) : KeeperState × Bool :=
  let s := acc.1
  if acc.2 then acc
  else if 0 < v.unbondingEpoch ∧ v.unbondingEpoch + UnbondingStateEpochLimit ≤ epoch then
    let vu : ValidatorUnbonding :=
      { chainId := hc.chainId
        epochNumber := epoch
        validatorAddress := v.operatorAddress
        amount := { denom := hc.hostDenom, amount := v.delegatedAmount }
        ibcSequenceId := "" }
    let msg := RemoteMsg.undelegate hc.delegationAccount.address vu.validatorAddress vu.amount
    match env.icaResult hc.connectionId hc.delegationAccount.owner [msg] with
    | none => (s, true)
    | some seqId =>
      let s := recordSubmission s
        ⟨hc.chainId, none, .ica hc.connectionId hc.delegationAccount.owner [msg]⟩
      let s := setValidatorUnbonding s { vu with ibcSequenceId := seqId }
      let s := setHostChain s (env.redistributeValidatorWeight hc v)
      (emitEvent s (Event.validatorUndelegationWorkflow hc.chainId vu.validatorAddress epoch seqId), false)
  else acc

/-- One iteration of the ValidatorUndelegationWorkflow chain loop:
skipped for inactive chains and non-unbonding epochs; otherwise runs the
validator loop over the chain's validator snapshot. -/
def vuChainStep (env : Env) (epoch : Int) (acc : KeeperState × Bool)
    (hc : HostChain) : KeeperState × Bool :=
  if acc.2 then acc
  else if !hc.active then acc
  else if !IsUnbondingEpoch hc.unbondingFactor epoch then acc
  else hc.validators.foldl (vuValidatorStep env epoch hc) acc

/-- ValidatorUndelegationWorkflow over all host chains; a failed ICA
submission aborts the remainder of the whole workflow invocation. -/
def ValidatorUndelegationWorkflow (env : Env) (epoch : Int) (s : KeeperState) : KeeperState :=
  (s.hostChains.foldl (vuChainStep env epoch) (s, false)).1

/-- The reward-withdrawal messages of a chain: one per validator with a
strictly positive delegated amount. -/
def rewardsMessages (hc : HostChain) : List RemoteMsg :=
  (hc.validators.filter (fun v => decide (0 < v.delegatedAmount))).map
    (fun v => RemoteMsg.withdrawReward hc.delegationAccount.address v.operatorAddress)

/-- The fire-and-forget balance-query part of the rewards chain pass:
when the rewards account's ICA channel is live, issue the
non-compoundable balance query (when reward params are configured) and
the general balance query; failures only log. -/
def rewardsQueriesPart (env : Env) (s : KeeperState) (hc : HostChain) : KeeperState :=
  match hc.rewardsAccount with
  | none => s
  | some ra =>
    if ra.channelState == ChannelState.created then
      let s :=
        if hc.hasRewardParams then
          if env.queryNonCompoundableBalanceOk hc.chainId then
            { s with balanceQueries := s.balanceQueries ++ [hc.chainId] }
          else s
        else s
      if env.queryRewardsBalanceOk hc.chainId then
        { s with balanceQueries := s.balanceQueries ++ [hc.chainId] }
      else s
    else s

/-- One iteration of the RewardsWorkflow chain loop: skipped for
inactive chains; submits the withdrawal batch only when the message
list is non-empty; a failed batch submission skips the rest of the
chain's pass (including its balance queries). -/
def rewardsChainStep (env : Env) (epoch : Int) (s : KeeperState) (hc : HostChain) : KeeperState :=
  if !hc.active then s
  else
    let messages := rewardsMessages hc
    if 0 < messages.length then
      match env.icaResult hc.connectionId hc.delegationAccount.owner messages with
      | none => s
      | some _ =>
        let s := recordSubmission s
          ⟨hc.chainId, none, .ica hc.connectionId hc.delegationAccount.owner messages⟩
        rewardsQueriesPart env (emitEvent s (Event.rewardsWorkflow hc.chainId epoch)) hc
    else rewardsQueriesPart env s hc

/-- RewardsWorkflow over all host chains. -/
def RewardsWorkflow (env : Env) (epoch : Int) (s : KeeperState) : KeeperState :=
  s.hostChains.foldl (rewardsChainStep env epoch) s

/-- One iteration of the RebalanceWorkflow message loop: each generated
redelegation message is submitted as its own ICA transaction; a failed
submission is skipped; a successful one yields a SENT RedelegateTx. -/
def rebalanceMsgStep (env : Env) (hc : HostChain) (s : KeeperState) (msg : RemoteMsg) : KeeperState :=
  match env.icaResult hc.connectionId hc.delegationAccount.owner [msg] with
  | none => s
  | some seqId =>
    let s := recordSubmission s
      ⟨hc.chainId, none, .ica hc.connectionId hc.delegationAccount.owner [msg]⟩
    setRedelegationTx s { chainId := hc.chainId, ibcSequenceId := seqId, state := RedelegateTxState.sent }

/-- One iteration of the RebalanceWorkflow chain loop: skipped on the
chain's own unbonding epoch; otherwise submits every message produced by
the redelegation allocator. -/
def rebalanceChainStep (env : Env) (epoch : Int) (s : KeeperState) (hc : HostChain) : KeeperState :=
  if IsUnbondingEpoch hc.unbondingFactor epoch then s
  else (env.genRedelegateMsgs hc).foldl (rebalanceMsgStep env hc) s

/-- RebalanceWorkflow over all host chains. -/
def RebalanceWorkflow (env : Env) (epoch : Int) (s : KeeperState) : KeeperState :=
  s.hostChains.foldl (rebalanceChainStep env epoch) s

/-! ### Concrete fixtures used by witnesses and counterexamples -/

/-- A concrete delegation ICA account. -/
def fixDelegationAcct : ICAAccount :=
  { address := "cosmos1deleg", owner := "pstake-owner-1"
    balance := { denom := "uatom", amount := 1000 }, channelState := ChannelState.created }

/-- A concrete rewards ICA account. -/
def fixRewardsAcct : ICAAccount :=
  { address := "cosmos1rewards", owner := "pstake-owner-1-rewards"
    balance := { denom := "uatom", amount := 0 }, channelState := ChannelState.created }

/-- A concrete validator. -/
def fixValidator : Validator :=
  { operatorAddress := "cosmosvaloper1", delegatedAmount := 500, weight := 1, unbondingEpoch := 0 }

/-- A concrete active host chain with a 2% restake fee. -/
def fixChain : HostChain :=
  { chainId := "chain-1", connectionId := "connection-0", channelId := "channel-0"
    active := true, hostDenom := "uatom", delegationAccount := fixDelegationAcct
    rewardsAccount := some fixRewardsAcct, validators := [fixValidator]
    unbondingFactor := 3, restakeFeeNum := 2 * 10 ^ 16, flagsLsm := false
    hasRewardParams := false }

/-- A concrete keeper state holding only `fixChain`. -/
def fixState : KeeperState :=
  { hostChains := [fixChain], deposits := [], lsmDeposits := [], unbondings := []
    validatorUnbondings := [], redelegateTxs := [], events := [], submissions := []
    feeSends := [], cValueUpdates := [], balanceQueries := [], delegationEpoch := 5
    depositModuleAddr := "cosmos1depositmodule", undelegationModuleAddr := "cosmos1undelegmodule"
    feeAddress := "cosmos1fee", blockTimeNanos := 0 }

/-- A concrete environment in which every external call succeeds. -/
def fixEnv : Env :=
  { transferResult := fun _ => TransferOutcome.sent 7
    icaResult := fun _ _ _ => some "channel-0-sequence-9"
    genUndelegateMessages := fun _ _ => some []
    genRedelegateMsgs := fun _ => []
    redistributeValidatorWeight := fun hc _ => hc
    sendProtocolFeeOk := fun _ _ => true
    queryRewardsBalanceOk := fun _ => true
    queryNonCompoundableBalanceOk := fun _ => true }

/-- GetLSMDeposit: look up an LSM deposit by its unique id. -/
def getLSMDeposit (s : KeeperState) (i : Nat) : Option LSMDeposit :=
  s.lsmDeposits.find? (fun d => d.id == i)

/-- A concrete pending deposit for the current delegation epoch. -/
def fixDeposit : Deposit :=
  { chainId := "chain-1", epoch := 5, amount := { denom := "uatom", amount := 100 }
    state := DepositState.pending, ibcSequenceId := "" }

/-- `fixState` with the epoch-5 deposit record present. -/
def fixStateDep : KeeperState := { fixState with deposits := [fixDeposit] }

/-- An inbound autocompounding packet: 500 uatom from the rewards
account into the deposit module account, empty memo. -/
def autocompoundPacket : Packet :=
  { sequence := 2, sourceChannel := "channel-0", destinationChannel := "channel-5"
    data := some { denom := "uatom", sender := "cosmos1rewards"
                   receiver := "cosmos1depositmodule", amount := some 500, memo := "" } }

/-- A concrete deposit in SENT state carrying sequence id
channel-0-sequence-7. -/
def fixSentDeposit : Deposit :=
  { chainId := "chain-1", epoch := 5, amount := { denom := "uatom", amount := 100 }
    state := DepositState.sent, ibcSequenceId := "channel-0-sequence-7" }

/-- `fixState` with the SENT deposit present. -/
def fixStateSent : KeeperState := { fixState with deposits := [fixSentDeposit] }

/-- The outbound deposit transfer packet (sequence 7 on channel-0) as it
appears to the acknowledgement and timeout hooks. -/
def depositTransferPacket : Packet :=
  { sequence := 7, sourceChannel := "channel-0", destinationChannel := "channel-5"
    data := some { denom := "uatom", sender := "cosmos1depositmodule"
                   receiver := "cosmos1deleg", amount := some 100, memo := "" } }

/-- An inbound unbonding-settlement packet: from the delegation account
into the undelegation module account, empty memo. -/
def unbondingPacket : Packet :=
  { sequence := 3, sourceChannel := "channel-0", destinationChannel := "channel-5"
    data := some { denom := "uatom", sender := "cosmos1deleg"
                   receiver := "cosmos1undelegmodule", amount := some 200, memo := "" } }

/-- The outbound submissions recorded for one host chain. -/
def submissionsFor (s : KeeperState) (h : String) : List Submission :=
  s.submissions.filter (fun x => x.chainId == h)

/-- The submissions recorded for one deposit record (tagged with its
(chain id, epoch) key). -/
def submissionsForDeposit (s : KeeperState) (k : String × Int) : List Submission :=
  s.submissions.filter (fun x => x.depositKey == some k)

/-- `fixChain` with its only validator holding zero delegation. -/
def fixZeroValChain : HostChain :=
  { fixChain with validators := [{ fixValidator with delegatedAmount := 0 }] }

/-- A state holding only the zero-delegation chain. -/
def fixStateZeroVal : KeeperState := { fixState with hostChains := [fixZeroValChain] }

/-- An inactive host chain (Active flag false). -/
def inactiveChain : HostChain := { fixChain with chainId := "chain-2", active := false }

/-- A state holding only the inactive chain. -/
def inactiveState : KeeperState := { fixState with hostChains := [inactiveChain] }

/-- An environment whose redelegation allocator produces one move for
every chain. -/
def rebalEnv : Env := { fixEnv with genRedelegateMsgs := fun hc =>
  [RemoteMsg.redelegate hc.delegationAccount.address "cosmosvaloper1" "cosmosvaloper2"
    { denom := hc.hostDenom, amount := 5 }] }

/-- A validator stuck in UNBONDING since epoch 1. -/
def vuValA : Validator :=
  { operatorAddress := "valA", delegatedAmount := 300, weight := 1, unbondingEpoch := 1 }
/-- First host chain of the abort scenario. -/
def vuChainA : HostChain :=
  { fixChain with
    chainId := "chain-A"
    connectionId := "connection-A"
    validators := [vuValA]
    unbondingFactor := 1 }
/-- Second host chain of the abort scenario. -/
def vuChainB : HostChain :=
  { fixChain with
    chainId := "chain-B"
    connectionId := "connection-B"
    validators := [vuValA]
    unbondingFactor := 1 }
/-- A state holding the two force-unbond chains. -/
def vuState : KeeperState := { fixState with hostChains := [vuChainA, vuChainB] }
/-- An environment in which ICA submission fails for the first chain's
connection and succeeds for the second's. -/
def vuEnv : Env := { fixEnv with icaResult := fun conn _ _ =>
  if conn == "connection-A" then none else some "seq-B" }

/-- A zero-amount pending deposit from epoch 4. -/
def zeroDeposit : Deposit :=
  { chainId := "chain-1", epoch := 4, amount := { denom := "uatom", amount := 0 }
    state := DepositState.pending, ibcSequenceId := "" }

/-- `fixState` with only the zero-amount epoch-4 deposit. -/
def fixStateZeroDep : KeeperState := { fixState with deposits := [zeroDeposit] }

/-- First chain of the undelegation scenario (its ICA connection fails). -/
def u6ChainA : HostChain :=
  { fixChain with
    chainId := "chain-A"
    connectionId := "connection-A"
    unbondingFactor := 1 }

/-- Second chain of the undelegation scenario (its ICA connection works). -/
def u6ChainB : HostChain :=
  { fixChain with
    chainId := "chain-B"
    connectionId := "connection-B"
    unbondingFactor := 1 }

/-- Epoch-5 unbonding record of the first chain. -/
def u6UnbondingA : Unbonding :=
  { chainId := "chain-A", epochNumber := 5
    unbondAmount := { denom := "uatom", amount := 70 }
    burnAmount := { denom := "stk/uatom", amount := 70 }
    state := UnbondingState.pending, ibcSequenceId := "" }

/-- Epoch-5 unbonding record of the second chain. -/
def u6UnbondingB : Unbonding := { u6UnbondingA with chainId := "chain-B" }

/-- Two-chain state with both unbonding records. -/
def u6State : KeeperState :=
  { fixState with
    hostChains := [u6ChainA, u6ChainB]
    unbondings := [u6UnbondingA, u6UnbondingB] }

/-- Environment where the allocator succeeds and ICA submission fails
only on the first chain's connection. -/
def u6Env : Env :=
  { fixEnv with
    genUndelegateMessages := fun hc amt =>
      some [RemoteMsg.undelegate hc.delegationAccount.address "cosmosvaloper1"
        { denom := hc.hostDenom, amount := amt }]
    icaResult := fun conn _ _ => if conn == "connection-A" then none else some "seq-6" }

/-! ### Store lemmas -/

theorem find?_map_upd_self {A : Type} (p : A -> Bool) (x : A) (l : List A)
    (hx : p x = true) (hl : l.any p = true) :
    (l.map (fun e => if p e then x else e)).find? p = some x := by
  induction l with
  | nil => simp at hl
  | cons a t ih =>
    by_cases hpa : p a = true
    · simp [List.find?_cons, hpa, hx]
    · have ht : t.any p = true := by
        simp only [List.any_cons, Bool.or_eq_true] at hl
        rcases hl with hl | hl
        · exact absurd hl hpa
        · exact hl
      simp [List.find?_cons, hpa, ih ht]

theorem find?_map_upd_other {A : Type} (p q : A -> Bool) (x : A) (l : List A)
    (hqx : q x = false) (hpq : ∀ y, p y = true → q y = false) :
    (l.map (fun e => if p e then x else e)).find? q = l.find? q := by
  induction l with
  | nil => rfl
  | cons a t ih =>
    by_cases hpa : p a = true
    · have hqa : q a = false := hpq a hpa
      simp [List.find?_cons, hpa, hqa, hqx, ih]
    · by_cases hqa : q a = true
      · simp [List.find?_cons, hpa, hqa]
      · simp only [Bool.not_eq_true] at hqa
        simp [List.find?_cons, hpa, hqa, ih]

theorem find?_upsert_self {A : Type} (p : A -> Bool) (x : A) (l : List A)
    (hx : p x = true) : (upsert p x l).find? p = some x := by
  unfold upsert
  split
  case isTrue h => exact find?_map_upd_self p x l hx h
  case isFalse h =>
    have hnone : l.find? p = none := by
      apply List.find?_eq_none.mpr
      intro a ha hpa
      exact h (List.any_eq_true.mpr ⟨a, ha, hpa⟩)
    rw [List.find?_append, hnone]
    simp [List.find?_cons, hx]

theorem find?_upsert_other {A : Type} (p q : A -> Bool) (x : A) (l : List A)
    (hqx : q x = false) (hpq : ∀ y, p y = true → q y = false) :
    (upsert p x l).find? q = l.find? q := by
  unfold upsert
  split
  · exact find?_map_upd_other p q x l hqx hpq
  · rw [List.find?_append]
    cases hfl : l.find? q with
    | some a => rfl
    | none => simp [List.find?_cons, hqx]

theorem find?_filter_not_self {A : Type} (p : A -> Bool) (l : List A) :
    (l.filter (fun e => !(p e))).find? p = none := by
  apply List.find?_eq_none.mpr
  intro a ha
  have := List.of_mem_filter ha
  simp only [Bool.not_eq_true'] at this
  simp [this]

theorem find?_filter_not_other {A : Type} (p q : A -> Bool) (l : List A)
    (hpq : ∀ y, p y = true → q y = false) :
    (l.filter (fun e => !(p e))).find? q = l.find? q := by
  induction l with
  | nil => rfl
  | cons a t ih =>
    by_cases hpa : p a = true
    · have hqa : q a = false := hpq a hpa
      simp [List.filter_cons, hpa, List.find?_cons, hqa, ih]
    · simp only [Bool.not_eq_true] at hpa
      by_cases hqa : q a = true
      · simp [List.filter_cons, hpa, List.find?_cons, hqa]
      · simp only [Bool.not_eq_true] at hqa
        simp [List.filter_cons, hpa, List.find?_cons, hqa, ih]

theorem getDeposit_setDeposit_self (s : KeeperState) (d : Deposit) (c : String) (e : Int)
    (h1 : d.chainId = c) (h2 : d.epoch = e) :
    getDeposit (setDeposit s d) c e = some d := by
  subst h1 h2
  unfold getDeposit setDeposit
  exact find?_upsert_self _ _ _ (by simp)

theorem getDeposit_setDeposit_ne (s : KeeperState) (d : Deposit) (c : String) (e : Int)
    (h : ¬(d.chainId = c ∧ d.epoch = e)) :
    getDeposit (setDeposit s d) c e = getDeposit s c e := by
  unfold getDeposit setDeposit
  apply find?_upsert_other
  · simp only [Bool.and_eq_false_iff, beq_eq_false_iff_ne, ne_eq]
    by_cases h1 : d.chainId = c
    · exact Or.inr (fun h2 => h ⟨h1, h2⟩)
    · exact Or.inl h1
  · intro y hy
    simp only [Bool.and_eq_true, beq_iff_eq] at hy
    simp only [Bool.and_eq_false_iff, beq_eq_false_iff_ne, ne_eq, hy.1, hy.2]
    by_cases h1 : d.chainId = c
    · exact Or.inr (fun h2 => h ⟨h1, h2⟩)
    · exact Or.inl h1

theorem getDeposit_deleteDeposit_self (s : KeeperState) (d : Deposit) (c : String) (e : Int)
    (h1 : d.chainId = c) (h2 : d.epoch = e) :
    getDeposit (deleteDeposit s d) c e = none := by
  subst h1 h2
  unfold getDeposit deleteDeposit
  exact find?_filter_not_self _ _

theorem getDeposit_deleteDeposit_ne (s : KeeperState) (d : Deposit) (c : String) (e : Int)
    (h : ¬(d.chainId = c ∧ d.epoch = e)) :
    getDeposit (deleteDeposit s d) c e = getDeposit s c e := by
  unfold getDeposit deleteDeposit
  apply find?_filter_not_other
  intro y hy
  simp only [Bool.and_eq_true, beq_iff_eq] at hy
  simp only [Bool.and_eq_false_iff, beq_eq_false_iff_ne, ne_eq, hy.1, hy.2]
  by_cases h1 : d.chainId = c
  · exact Or.inr (fun h2 => h ⟨h1, h2⟩)
  · exact Or.inl h1

theorem findChain_setHostChain_self (s : KeeperState) (hc : HostChain) (c : String)
    (h1 : hc.chainId = c) :
    findChain (setHostChain s hc) c = some hc := by
  subst h1
  unfold findChain setHostChain
  exact find?_upsert_self _ _ _ (by simp)

theorem findChain_setHostChain_ne (s : KeeperState) (hc : HostChain) (c : String)
    (h : hc.chainId ≠ c) :
    findChain (setHostChain s hc) c = findChain s c := by
  unfold findChain setHostChain
  apply find?_upsert_other
  · simp [h]
  · intro y hy
    simp only [beq_iff_eq] at hy
    simp [hy, h]

theorem getUnbonding_setUnbonding_self (s : KeeperState) (u : Unbonding) (c : String) (e : Int)
    (h1 : u.chainId = c) (h2 : u.epochNumber = e) :
    getUnbonding (setUnbonding s u) c e = some u := by
  subst h1 h2
  unfold getUnbonding setUnbonding
  exact find?_upsert_self _ _ _ (by simp)

theorem getUnbonding_setUnbonding_ne (s : KeeperState) (u : Unbonding) (c : String) (e : Int)
    (h : ¬(u.chainId = c ∧ u.epochNumber = e)) :
    getUnbonding (setUnbonding s u) c e = getUnbonding s c e := by
  unfold getUnbonding setUnbonding
  apply find?_upsert_other
  · simp only [Bool.and_eq_false_iff, beq_eq_false_iff_ne, ne_eq]
    by_cases h1 : u.chainId = c
    · exact Or.inr (fun h2 => h ⟨h1, h2⟩)
    · exact Or.inl h1
  · intro y hy
    simp only [Bool.and_eq_true, beq_iff_eq] at hy
    simp only [Bool.and_eq_false_iff, beq_eq_false_iff_ne, ne_eq, hy.1, hy.2]
    by_cases h1 : u.chainId = c
    · exact Or.inr (fun h2 => h ⟨h1, h2⟩)
    · exact Or.inl h1

theorem foldl_field_const {σ α β : Type} (f : σ → α → σ) (g : σ → β)
    (h : ∀ t a, g (f t a) = g t) (l : List α) (s : σ) :
    g (l.foldl f s) = g s := by
  induction l generalizing s with
  | nil => rfl
  | cons a t ih => rw [List.foldl_cons, ih, h]

theorem getDeposit_key (s : KeeperState) (c : String) (e : Int) (d : Deposit)
    (h : getDeposit s c e = some d) : d.chainId = c ∧ d.epoch = e := by
  unfold getDeposit at h
  have := List.find?_some h
  simpa using this

theorem getUnbonding_key (s : KeeperState) (c : String) (e : Int) (u : Unbonding)
    (h : getUnbonding s c e = some u) : u.chainId = c ∧ u.epochNumber = e := by
  unfold getUnbonding at h
  have := List.find?_some h
  simpa using this

theorem findChain_key (s : KeeperState) (c : String) (hc : HostChain)
    (h : findChain s c = some hc) : hc.chainId = c := by
  unfold findChain at h
  have := List.find?_some h
  simpa using this

theorem findChain_mem (s : KeeperState) (c : String) (hc : HostChain)
    (h : findChain s c = some hc) : hc ∈ s.hostChains := by
  unfold findChain at h
  exact List.mem_of_find?_eq_some h

/-! ### Branch lemmas for the inbound-transfer handler -/

theorem recvUnbondingBranch_skip (s : KeeperState) (hc : HostChain) (d : PacketData)
    (h : (d.sender == hc.delegationAccount.address) = false) :
    recvUnbondingBranch s hc d = s := by
  unfold recvUnbondingBranch
  simp [h]

theorem recvValidatorUnbondingBranch_skip (s : KeeperState) (hc : HostChain) (d : PacketData)
    (h : (d.sender == hc.delegationAccount.address) = false) :
    recvValidatorUnbondingBranch s hc d = .ok s := by
  unfold recvValidatorUnbondingBranch
  simp [h]

theorem OnRecv_to_autocompound (env : Env) (s : KeeperState) (packet : Packet)
    (d : PacketData) (hc : HostChain)
    (hdata : packet.data = some d)
    (hchain : findChainByHostDenom s d.denom = some hc)
    (hnb : (d.sender == hc.delegationAccount.address) = false) :
    OnRecvIBCTransferPacket env s packet true = recvAutocompoundBranch env s hc d := by
  unfold OnRecvIBCTransferPacket
  rw [hdata]
  simp only [Bool.not_true, Bool.false_eq_true, if_false, hchain,
    recvUnbondingBranch_skip s hc d hnb, recvValidatorUnbondingBranch_skip s hc d hnb]
  rfl

theorem recvAutocompound_fires (env : Env) (s : KeeperState) (hc : HostChain)
    (d : PacketData) (ra : ICAAccount) (dep : Deposit) (A : Int)
    (hra : hc.rewardsAccount = some ra)
    (hsender : d.sender = ra.address)
    (hrecv : d.receiver = s.depositModuleAddr)
    (hmemo : d.memo = "")
    (hamt : d.amount = some A)
    (hfee : env.sendProtocolFeeOk (restakeFeeTrunc hc.restakeFeeNum A) s.feeAddress = true)
    (hdep : getDeposit s hc.chainId s.delegationEpoch = some dep) :
    ∃ s', recvAutocompoundBranch env s hc d = .ok s'
      ∧ getDeposit s' hc.chainId s.delegationEpoch =
          some { dep with amount := { dep.amount with
            amount := dep.amount.amount + (A - restakeFeeTrunc hc.restakeFeeNum A) } }
      ∧ s'.feeSends = s.feeSends ++ [(restakeFeeTrunc hc.restakeFeeNum A, s.feeAddress)]
      ∧ s'.cValueUpdates = s.cValueUpdates ++ [hc.chainId]
      ∧ s'.events = s.events ++
          [Event.autocompoundRewardsReceived hc.chainId A (restakeFeeTrunc hc.restakeFeeNum A)] := by
  obtain ⟨hk1, hk2⟩ := getDeposit_key s hc.chainId s.delegationEpoch dep hdep
  have hdep' : getDeposit
      { s with feeSends := s.feeSends ++ [(restakeFeeTrunc hc.restakeFeeNum A, s.feeAddress)] }
      hc.chainId s.delegationEpoch = some dep := hdep
  unfold recvAutocompoundBranch senderIsRewardsAccount
  simp only [hra, hsender, beq_self_eq_true, Bool.true_and, hrecv, hmemo, Bool.and_self,
    if_true, hamt, hfee, hdep']
  exact ⟨_, rfl, getDeposit_setDeposit_self _ _ _ _ hk1 hk2, rfl, rfl, rfl⟩

/-- C5: for every autocompounding inbound transfer of integer amount A on
a chain with fee rate r (= restakeFeeNum / 10^18), the fee sent to the
protocol fee address equals floor(A × r), the amount credited to the
current epoch's deposit record equals A − floor(A × r), the two sum
exactly to A, and the chain's exchange value is recomputed. -/
theorem autocompound_fee_split (env : Env) (s : KeeperState) (packet : Packet)
    (d : PacketData) (hc : HostChain) (ra : ICAAccount) (dep : Deposit) (A : Int)
    (hdata : packet.data = some d)
    (hchain : findChainByHostDenom s d.denom = some hc)
    (hra : hc.rewardsAccount = some ra)
    (hsender : d.sender = ra.address)
    (hnotdeleg : d.sender ≠ hc.delegationAccount.address)
    (hrecv : d.receiver = s.depositModuleAddr)
    (hmemo : d.memo = "")
    (hamt : d.amount = some A)
    (hA : 0 ≤ A)
    (hfee : env.sendProtocolFeeOk (restakeFeeTrunc hc.restakeFeeNum A) s.feeAddress = true)
    (hdep : getDeposit s hc.chainId s.delegationEpoch = some dep) :
    ∃ s', OnRecvIBCTransferPacket env s packet true = .ok s'
      ∧ restakeFeeTrunc hc.restakeFeeNum A = Int.fdiv (A * (hc.restakeFeeNum : Int)) decUnit
      ∧ restakeFeeTrunc hc.restakeFeeNum A + (A - restakeFeeTrunc hc.restakeFeeNum A) = A
      ∧ getDeposit s' hc.chainId s.delegationEpoch =
          some { dep with amount := { dep.amount with
            amount := dep.amount.amount + (A - restakeFeeTrunc hc.restakeFeeNum A) } }
      ∧ s'.feeSends = s.feeSends ++ [(restakeFeeTrunc hc.restakeFeeNum A, s.feeAddress)]
      ∧ s'.cValueUpdates = s.cValueUpdates ++ [hc.chainId] := by
  obtain ⟨s', heq, hdep', hfees, hcv, _⟩ :=
    recvAutocompound_fires env s hc d ra dep A hra hsender hrecv hmemo hamt hfee hdep
  refine ⟨s', ?_, ?_, by ring, hdep', hfees, hcv⟩
  · rw [OnRecv_to_autocompound env s packet d hc hdata hchain
      (beq_eq_false_iff_ne.mpr hnotdeleg)]
    exact heq
  · unfold restakeFeeTrunc
    rw [Int.tdiv_eq_ediv (mul_nonneg hA (Int.natCast_nonneg _)) (by norm_num [decUnit]),
      Int.fdiv_eq_ediv _ (by norm_num [decUnit])]

/-- Witness for C5 at a concrete input: amount 500, fee rate 2%,
fee 10, credited 490. -/
theorem autocompound_fee_split_witness :
    ∃ s', OnRecvIBCTransferPacket fixEnv fixStateDep autocompoundPacket true = .ok s'
      ∧ restakeFeeTrunc fixChain.restakeFeeNum 500 =
          Int.fdiv (500 * (fixChain.restakeFeeNum : Int)) decUnit
      ∧ restakeFeeTrunc fixChain.restakeFeeNum 500 +
          (500 - restakeFeeTrunc fixChain.restakeFeeNum 500) = 500
      ∧ getDeposit s' fixChain.chainId fixStateDep.delegationEpoch =
          some { fixDeposit with amount := { fixDeposit.amount with
            amount := fixDeposit.amount.amount + (500 - restakeFeeTrunc fixChain.restakeFeeNum 500) } }
      ∧ s'.feeSends = fixStateDep.feeSends ++
          [(restakeFeeTrunc fixChain.restakeFeeNum 500, fixStateDep.feeAddress)]
      ∧ s'.cValueUpdates = fixStateDep.cValueUpdates ++ [fixChain.chainId] :=
  autocompound_fee_split fixEnv fixStateDep autocompoundPacket _ fixChain fixRewardsAcct
    fixDeposit 500 rfl rfl rfl rfl (by decide) rfl rfl rfl (by decide) rfl rfl

/-- C4: once every record's sequence identifier differs from a given
sequence identifier (as after a prior acknowledgement or timeout cleared
it), redelivering an acknowledgement or timeout callback for that
identifier matches no records, changes no state, and returns no error. -/
theorem settled_sequence_replay_noop (s : KeeperState) (packet : Packet)
    (d : PacketData) (A : Int)
    (hdata : packet.data = some d)
    (hamt : d.amount = some A)
    (hdeps : ∀ dep ∈ s.deposits, dep.ibcSequenceId ≠ mkSeqId packet.sourceChannel packet.sequence)
    (hlsm : ∀ dep ∈ s.lsmDeposits, dep.ibcSequenceId ≠ mkSeqId packet.sourceChannel packet.sequence) :
    OnAcknowledgementIBCTransferPacket s packet (some true) false = .ok s
      ∧ OnTimeoutIBCTransferPacket s packet false = .ok s := by
  have hd : depositsWithSeqId s (mkSeqId packet.sourceChannel packet.sequence) = [] := by
    unfold depositsWithSeqId
    rw [List.filter_eq_nil_iff]
    intro dep hmem
    simp only [beq_iff_eq]
    exact hdeps dep hmem
  have hl : lsmDepositsWithSeqId s (mkSeqId packet.sourceChannel packet.sequence) = [] := by
    unfold lsmDepositsWithSeqId
    rw [List.filter_eq_nil_iff]
    intro dep hmem
    simp only [beq_iff_eq]
    exact hlsm dep hmem
  constructor
  · unfold OnAcknowledgementIBCTransferPacket
    rw [hdata]
    simp only [Bool.not_true, Bool.false_eq_true, if_false, hamt]
    cases hs : d.sender == s.depositModuleAddr with
    | false => simp [hs]
    | true =>
      simp only [hs, if_true, hd, List.foldlM_nil, pure_bind, hl,
        updateLSMDepositsStateAndSequence, List.foldl_nil]
      rfl
  · unfold OnTimeoutIBCTransferPacket
    rw [hdata]
    simp only [Bool.not_true, Bool.false_eq_true, if_false]
    cases hs : d.sender == s.depositModuleAddr with
    | false => simp [hs]
    | true =>
      simp only [hs, if_true, hd, revertDepositsState, List.foldl_nil,
        List.foldlM_nil, pure_bind, hl, revertLSMDepositsState]
      rfl

/-- Witness for C4: a deposit whose sequence id has been cleared does
not match a redelivered callback for sequence 2 of channel-0. -/
theorem settled_sequence_replay_noop_witness :
    OnAcknowledgementIBCTransferPacket fixStateDep autocompoundPacket (some true) false
        = .ok fixStateDep
      ∧ OnTimeoutIBCTransferPacket fixStateDep autocompoundPacket false = .ok fixStateDep :=
  settled_sequence_replay_noop fixStateDep autocompoundPacket _ 500 rfl rfl
    (by decide) (by decide)

theorem except_bind_ok {E A B : Type} (a : A) (f : A → Except E B) :
    (Except.ok a : Except E A) >>= f = f a := rfl

theorem except_pure_eq_ok {E A : Type} (a : A) : (pure a : Except E A) = Except.ok a := rfl

theorem lsmDepositsWithSeqId_emitEvent (s : KeeperState) (e : Event) (q : String) :
    lsmDepositsWithSeqId (emitEvent s e) q = lsmDepositsWithSeqId s q := rfl

theorem lsmDepositsWithSeqId_setHostChain (s : KeeperState) (hc : HostChain) (q : String) :
    lsmDepositsWithSeqId (setHostChain s hc) q = lsmDepositsWithSeqId s q := rfl

theorem lsmDepositsWithSeqId_setDeposit (s : KeeperState) (d : Deposit) (q : String) :
    lsmDepositsWithSeqId (setDeposit s d) q = lsmDepositsWithSeqId s q := rfl

/-- C2: for an acknowledgement callback with a successful ack whose
packet sender is the deposit module account, the Deposit record carrying
the matching sequence identifier (here: the single matching record) is
set to RECEIVED with its sequence identifier cleared, the host chain's
tracked delegation-account balance increases by exactly the transferred
amount, and one event is emitted for the settled record. -/
theorem ack_settles_deposit (s : KeeperState) (packet : Packet) (d : PacketData)
    (A : Int) (d0 : Deposit) (hc : HostChain)
    (hdata : packet.data = some d)
    (hamt : d.amount = some A)
    (hsender : d.sender = s.depositModuleAddr)
    (hmatch : depositsWithSeqId s (mkSeqId packet.sourceChannel packet.sequence) = [d0])
    (hchain : findChain s d0.chainId = some hc)
    (hlsm : lsmDepositsWithSeqId s (mkSeqId packet.sourceChannel packet.sequence) = []) :
    ∃ s', OnAcknowledgementIBCTransferPacket s packet (some true) false = .ok s'
      ∧ getDeposit s' d0.chainId d0.epoch =
          some { d0 with state := DepositState.received, ibcSequenceId := "" }
      ∧ findChain s' d0.chainId = some { hc with delegationAccount :=
          { hc.delegationAccount with balance := { hc.delegationAccount.balance with
            amount := hc.delegationAccount.balance.amount + A } } }
      ∧ s'.events = s.events ++
          [Event.stakingDepositTransferReceived hc.chainId (mkSeqId packet.sourceChannel packet.sequence)] := by
  have hcid : hc.chainId = d0.chainId := findChain_key s d0.chainId hc hchain
  unfold OnAcknowledgementIBCTransferPacket
  rw [hdata]
  simp only [Bool.not_true, Bool.false_eq_true, if_false, hamt, hsender, beq_self_eq_true,
    if_true, hmatch, List.foldlM_cons, List.foldlM_nil]
  unfold ackDepositStep
  have hchain' : findChain
      (setDeposit s { d0 with ibcSequenceId := "", state := DepositState.received })
      d0.chainId = some hc := hchain
  rw [hchain']
  simp only [except_bind_ok, except_pure_eq_ok, lsmDepositsWithSeqId_emitEvent,
    lsmDepositsWithSeqId_setHostChain, lsmDepositsWithSeqId_setDeposit, hlsm,
    updateLSMDepositsStateAndSequence, List.foldl_nil, List.foldlM_nil]
  refine ⟨_, rfl, getDeposit_setDeposit_self _ _ _ _ rfl rfl,
    findChain_setHostChain_self _ _ _ hcid, rfl⟩

/-- Witness for C2: settling the sequence-7 deposit transfer credits the
chain's delegation balance by 100 and marks the deposit RECEIVED. -/
theorem ack_settles_deposit_witness :
    ∃ s', OnAcknowledgementIBCTransferPacket fixStateSent depositTransferPacket (some true) false = .ok s'
      ∧ getDeposit s' fixSentDeposit.chainId fixSentDeposit.epoch =
          some { fixSentDeposit with state := DepositState.received, ibcSequenceId := "" }
      ∧ findChain s' fixSentDeposit.chainId = some { fixChain with delegationAccount :=
          { fixChain.delegationAccount with balance := { fixChain.delegationAccount.balance with
            amount := fixChain.delegationAccount.balance.amount + 100 } } }
      ∧ s'.events = fixStateSent.events ++
          [Event.stakingDepositTransferReceived fixChain.chainId
            (mkSeqId depositTransferPacket.sourceChannel depositTransferPacket.sequence)] :=
  ack_settles_deposit fixStateSent depositTransferPacket _ 100 fixSentDeposit fixChain
    rfl rfl rfl (by decide) rfl rfl

theorem recvUnbondingBranch_depositModuleAddr (s : KeeperState) (hc : HostChain) (d : PacketData) :
    (recvUnbondingBranch s hc d).depositModuleAddr = s.depositModuleAddr := by
  unfold recvUnbondingBranch
  split
  · exact foldl_field_const
      (fun acc u => emitEvent (setUnbonding acc
        { u with ibcSequenceId := "", state := UnbondingState.claimable })
        (Event.unbondingMaturedReceived hc.chainId u.epochNumber u.unbondAmount.amount))
      KeeperState.depositModuleAddr (fun t a => rfl)
      (filterUnbondings s fun u => u.chainId == hc.chainId && u.state == UnbondingState.matured) s
  · rfl

theorem recvValidatorUnbondingBranch_skip2 (s : KeeperState) (hc : HostChain) (d : PacketData)
    (h : (d.sender == hc.delegationAccount.address
        && d.receiver == s.depositModuleAddr && d.memo == "") = false) :
    recvValidatorUnbondingBranch s hc d = .ok s := by
  unfold recvValidatorUnbondingBranch
  simp [h]

theorem recvAutocompoundBranch_skip (env : Env) (s : KeeperState) (hc : HostChain) (d : PacketData)
    (h : (senderIsRewardsAccount hc d.sender
        && d.receiver == s.depositModuleAddr && d.memo == "") = false) :
    recvAutocompoundBranch env s hc d = .ok s := by
  unfold recvAutocompoundBranch
  simp [h]

/-- C7 counterexample: an autocompounding inbound transfer whose sender
is the rewards account — not the delegation account, so this is not the
forced-validator-unbonding classification — makes the handler return an
error when the current epoch's deposit record does not exist. The
forced-validator-unbonding path is therefore not the only inbound path
that can propagate an error. -/
theorem recv_error_other_path_counterexample :
    autocompoundPacket.data = some { denom := "uatom", sender := "cosmos1rewards"
                                     receiver := "cosmos1depositmodule", amount := some 500, memo := "" }
      ∧ ("cosmos1rewards" : String) ≠ fixChain.delegationAccount.address
      ∧ OnRecvIBCTransferPacket fixEnv fixState autocompoundPacket true
          = .error HandlerError.depositNotFound :=
  ⟨rfl, by decide, rfl⟩

/-- C7 (amended): among the inbound-transfer classifications, only the
forced-validator-unbonding settlement path AND the autocompounding
settlement path can make the handler return an error; an inbound
transfer with decodable packet data that matches neither of those two
(sender, receiver, memo) patterns — including the unbonding-maturity
settlement and unclassified transfers — is handled without propagating
an error. -/
theorem recv_error_only_from_settlement_paths (env : Env) (s : KeeperState)
    (packet : Packet) (ackSuccess : Bool) (d : PacketData)
    (hdata : packet.data = some d)
    (hnb : ∀ hc, findChainByHostDenom s d.denom = some hc →
      ¬(d.sender = hc.delegationAccount.address ∧ d.receiver = s.depositModuleAddr ∧ d.memo = "")
      ∧ ¬(senderIsRewardsAccount hc d.sender = true ∧ d.receiver = s.depositModuleAddr ∧ d.memo = "")) :
    ∃ s', OnRecvIBCTransferPacket env s packet ackSuccess = .ok s' := by
  unfold OnRecvIBCTransferPacket
  cases ackSuccess with
  | false => exact ⟨s, rfl⟩
  | true =>
    rw [hdata]
    simp only [Bool.not_true, Bool.false_eq_true, if_false]
    cases hfc : findChainByHostDenom s d.denom with
    | none => exact ⟨s, rfl⟩
    | some hc =>
      obtain ⟨hb, hcnd⟩ := hnb hc hfc
      have hdp := recvUnbondingBranch_depositModuleAddr s hc d
      have hcondb : (d.sender == hc.delegationAccount.address
          && d.receiver == (recvUnbondingBranch s hc d).depositModuleAddr && d.memo == "") = false := by
        apply Bool.eq_false_iff.mpr
        intro hcond
        rw [hdp] at hcond
        simp only [Bool.and_eq_true, beq_iff_eq] at hcond
        exact hb ⟨hcond.1.1, hcond.1.2, hcond.2⟩
      have hcondc : (senderIsRewardsAccount hc d.sender
          && d.receiver == (recvUnbondingBranch s hc d).depositModuleAddr && d.memo == "") = false := by
        apply Bool.eq_false_iff.mpr
        intro hcond
        rw [hdp] at hcond
        simp only [Bool.and_eq_true, beq_iff_eq] at hcond
        exact hcnd ⟨hcond.1.1, hcond.1.2, hcond.2⟩
      refine ⟨recvUnbondingBranch s hc d, ?_⟩
      simp only [recvValidatorUnbondingBranch_skip2 _ hc d hcondb, except_bind_ok,
        recvAutocompoundBranch_skip env _ hc d hcondc]

/-- Witness for the amended C7: an unbonding-maturity settlement packet
(delegation account to undelegation module account) is handled without
error. -/
theorem recv_error_only_from_settlement_paths_witness :
    ∃ s', OnRecvIBCTransferPacket fixEnv fixState unbondingPacket true = .ok s' :=
  recv_error_only_from_settlement_paths fixEnv fixState unbondingPacket true _ rfl
    (by
      intro hc hfc
      have h2 : some fixChain = some hc := hfc
      obtain rfl := Option.some.inj h2
      constructor
      · rintro ⟨-, h2, -⟩
        exact absurd h2 (by decide)
      · rintro ⟨-, h2, -⟩
        exact absurd h2 (by decide))

theorem findChain_eq_of_hostChains (s t : KeeperState) (c : String)
    (h : s.hostChains = t.hostChains) : findChain s c = findChain t c := by
  unfold findChain
  rw [h]

theorem getDeposit_eq_of_deposits (s t : KeeperState) (c : String) (e : Int)
    (h : s.deposits = t.deposits) : getDeposit s c e = getDeposit t c e := by
  unfold getDeposit
  rw [h]

theorem getLSMDeposit_eq_of_lsmDeposits (s t : KeeperState) (i : Nat)
    (h : s.lsmDeposits = t.lsmDeposits) : getLSMDeposit s i = getLSMDeposit t i := by
  unfold getLSMDeposit
  rw [h]

theorem getLSMDeposit_setLSMDeposit_self (s : KeeperState) (d : LSMDeposit) (i : Nat)
    (h1 : d.id = i) : getLSMDeposit (setLSMDeposit s d) i = some d := by
  subst h1
  unfold getLSMDeposit setLSMDeposit
  exact find?_upsert_self _ _ _ (by simp)

theorem getLSMDeposit_setLSMDeposit_ne (s : KeeperState) (d : LSMDeposit) (i : Nat)
    (h : d.id ≠ i) : getLSMDeposit (setLSMDeposit s d) i = getLSMDeposit s i := by
  unfold getLSMDeposit setLSMDeposit
  apply find?_upsert_other
  · simp [h]
  · intro y hy
    simp only [beq_iff_eq] at hy
    simp [hy, h]

theorem revertDeposits_frame (s : KeeperState) (ms : List Deposit) :
    (revertDepositsState s ms).hostChains = s.hostChains
      ∧ (revertDepositsState s ms).lsmDeposits = s.lsmDeposits := by
  unfold revertDepositsState
  constructor
  · exact foldl_field_const
      (fun acc d => setDeposit acc { d with state := DepositState.pending, ibcSequenceId := "" })
      KeeperState.hostChains (fun t a => rfl) ms s
  · exact foldl_field_const
      (fun acc d => setDeposit acc { d with state := DepositState.pending, ibcSequenceId := "" })
      KeeperState.lsmDeposits (fun t a => rfl) ms s

theorem revertLSMDeposits_frame (s : KeeperState) (ms : List LSMDeposit) :
    (revertLSMDepositsState s ms).hostChains = s.hostChains
      ∧ (revertLSMDepositsState s ms).deposits = s.deposits := by
  unfold revertLSMDepositsState
  constructor
  · exact foldl_field_const
      (fun acc d => setLSMDeposit acc { d with state := LSMDepositState.pending, ibcSequenceId := "" })
      KeeperState.hostChains (fun t a => rfl) ms s
  · exact foldl_field_const
      (fun acc d => setLSMDeposit acc { d with state := LSMDepositState.pending, ibcSequenceId := "" })
      KeeperState.deposits (fun t a => rfl) ms s

theorem getDeposit_revert_not_mem (s : KeeperState) (ms : List Deposit) (c : String) (e : Int)
    (h : ∀ m ∈ ms, ¬(m.chainId = c ∧ m.epoch = e)) :
    getDeposit (revertDepositsState s ms) c e = getDeposit s c e := by
  induction ms generalizing s with
  | nil => rfl
  | cons m t ih =>
    unfold revertDepositsState at ih ⊢
    rw [List.foldl_cons, ih _ (fun x hx => h x (List.mem_cons_of_mem m hx))]
    exact getDeposit_setDeposit_ne s _ c e (h m (List.mem_cons_self m t))

theorem getDeposit_revert_mem (s : KeeperState) (ms : List Deposit) (dep : Deposit)
    (hmem : dep ∈ ms)
    (hnd : (ms.map (fun x => (x.chainId, x.epoch))).Nodup) :
    getDeposit (revertDepositsState s ms) dep.chainId dep.epoch =
      some { dep with state := DepositState.pending, ibcSequenceId := "" } := by
  induction ms generalizing s with
  | nil => cases hmem
  | cons m t ih =>
    simp only [List.map_cons, List.nodup_cons, List.mem_map] at hnd
    rcases List.mem_cons.mp hmem with rfl | hmem'
    · unfold revertDepositsState
      rw [List.foldl_cons]
      have hne : ∀ x ∈ t, ¬(x.chainId = dep.chainId ∧ x.epoch = dep.epoch) := by
        intro x hx hcontra
        exact hnd.1 ⟨x, hx, by rw [hcontra.1, hcontra.2]⟩
      rw [show List.foldl _ (setDeposit s { dep with state := DepositState.pending, ibcSequenceId := "" }) t
          = revertDepositsState (setDeposit s { dep with state := DepositState.pending, ibcSequenceId := "" }) t from rfl]
      rw [getDeposit_revert_not_mem _ t dep.chainId dep.epoch hne]
      exact getDeposit_setDeposit_self _ _ _ _ rfl rfl
    · unfold revertDepositsState
      rw [List.foldl_cons]
      exact ih _ hmem' hnd.2

theorem getLSMDeposit_revert_not_mem (s : KeeperState) (ms : List LSMDeposit) (i : Nat)
    (h : ∀ m ∈ ms, m.id ≠ i) :
    getLSMDeposit (revertLSMDepositsState s ms) i = getLSMDeposit s i := by
  induction ms generalizing s with
  | nil => rfl
  | cons m t ih =>
    unfold revertLSMDepositsState at ih ⊢
    rw [List.foldl_cons, ih _ (fun x hx => h x (List.mem_cons_of_mem m hx))]
    exact getLSMDeposit_setLSMDeposit_ne s _ i (h m (List.mem_cons_self m t))

theorem getLSMDeposit_revert_mem (s : KeeperState) (ms : List LSMDeposit) (dep : LSMDeposit)
    (hmem : dep ∈ ms)
    (hnd : (ms.map LSMDeposit.id).Nodup) :
    getLSMDeposit (revertLSMDepositsState s ms) dep.id =
      some { dep with state := LSMDepositState.pending, ibcSequenceId := "" } := by
  induction ms generalizing s with
  | nil => cases hmem
  | cons m t ih =>
    simp only [List.map_cons, List.nodup_cons, List.mem_map] at hnd
    rcases List.mem_cons.mp hmem with rfl | hmem'
    · unfold revertLSMDepositsState
      rw [List.foldl_cons]
      have hne : ∀ x ∈ t, x.id ≠ dep.id := by
        intro x hx hcontra
        exact hnd.1 ⟨x, hx, hcontra⟩
      rw [show List.foldl _ (setLSMDeposit s { dep with state := LSMDepositState.pending, ibcSequenceId := "" }) t
          = revertLSMDepositsState (setLSMDeposit s { dep with state := LSMDepositState.pending, ibcSequenceId := "" }) t from rfl]
      rw [getLSMDeposit_revert_not_mem _ t dep.id hne]
      exact getLSMDeposit_setLSMDeposit_self _ _ _ rfl
    · unfold revertLSMDepositsState
      rw [List.foldl_cons]
      exact ih _ hmem' hnd.2

theorem timeoutDepositEvents_ok (seqId : String) (ds : List Deposit) (s : KeeperState)
    (hreg : ∀ dep ∈ ds, (findChain s dep.chainId).isSome = true) :
    ∃ t, ds.foldlM (timeoutDepositEventStep seqId) s = .ok t
      ∧ t.deposits = s.deposits ∧ t.hostChains = s.hostChains ∧ t.lsmDeposits = s.lsmDeposits := by
  induction ds generalizing s with
  | nil => exact ⟨s, rfl, rfl, rfl, rfl⟩
  | cons d ds ih =>
    cases hfc : findChain s d.chainId with
    | none =>
      have := hreg d (List.mem_cons_self d ds)
      rw [hfc] at this
      cases this
    | some hc =>
      rw [List.foldlM_cons]
      unfold timeoutDepositEventStep
      rw [hfc]
      simp only [except_bind_ok]
      obtain ⟨t, heq, h1, h2, h3⟩ := ih (emitEvent s (Event.stakingDepositTransferTimeout hc.chainId seqId))
        (fun dep hd => hreg dep (List.mem_cons_of_mem d hd))
      exact ⟨t, heq, h1, h2, h3⟩

theorem timeoutLSMDepositEvents_ok (seqId : String) (ds : List LSMDeposit) (s : KeeperState)
    (hreg : ∀ dep ∈ ds, (findChain s dep.chainId).isSome = true) :
    ∃ t, ds.foldlM (timeoutLSMDepositEventStep seqId) s = .ok t
      ∧ t.deposits = s.deposits ∧ t.hostChains = s.hostChains ∧ t.lsmDeposits = s.lsmDeposits := by
  induction ds generalizing s with
  | nil => exact ⟨s, rfl, rfl, rfl, rfl⟩
  | cons d ds ih =>
    cases hfc : findChain s d.chainId with
    | none =>
      have := hreg d (List.mem_cons_self d ds)
      rw [hfc] at this
      cases this
    | some hc =>
      rw [List.foldlM_cons]
      unfold timeoutLSMDepositEventStep
      rw [hfc]
      simp only [except_bind_ok]
      obtain ⟨t, heq, h1, h2, h3⟩ := ih (emitEvent s (Event.lsmDepositTransferTimeout hc.chainId seqId))
        (fun dep hd => hreg dep (List.mem_cons_of_mem d hd))
      exact ⟨t, heq, h1, h2, h3⟩

theorem lsmDepositsWithSeqId_eq_of (s t : KeeperState) (q : String)
    (h : s.lsmDeposits = t.lsmDeposits) :
    lsmDepositsWithSeqId s q = lsmDepositsWithSeqId t q := by
  unfold lsmDepositsWithSeqId
  rw [h]

/-- C3: for a timeout callback whose packet sender is the deposit module
account, every Deposit and LSMDeposit record carrying the matching
sequence identifier is reverted to its pending pre-send state (state
PENDING, sequence identifier cleared, amount field untouched), and the
host chains — hence every tracked delegation-account balance — are left
unchanged by the handler. -/
theorem timeout_reverts_records (s : KeeperState) (packet : Packet) (d : PacketData)
    (hdata : packet.data = some d)
    (hsender : d.sender = s.depositModuleAddr)
    (hndD : (s.deposits.map (fun x => (x.chainId, x.epoch))).Nodup)
    (hndL : (s.lsmDeposits.map LSMDeposit.id).Nodup)
    (hregD : ∀ dep ∈ s.deposits, dep.ibcSequenceId = mkSeqId packet.sourceChannel packet.sequence →
      (findChain s dep.chainId).isSome = true)
    (hregL : ∀ dep ∈ s.lsmDeposits, dep.ibcSequenceId = mkSeqId packet.sourceChannel packet.sequence →
      (findChain s dep.chainId).isSome = true) :
    ∃ s', OnTimeoutIBCTransferPacket s packet false = .ok s'
      ∧ s'.hostChains = s.hostChains
      ∧ (∀ dep ∈ s.deposits, dep.ibcSequenceId = mkSeqId packet.sourceChannel packet.sequence →
          getDeposit s' dep.chainId dep.epoch =
            some { dep with state := DepositState.pending, ibcSequenceId := "" })
      ∧ (∀ dep ∈ s.lsmDeposits, dep.ibcSequenceId = mkSeqId packet.sourceChannel packet.sequence →
          getLSMDeposit s' dep.id =
            some { dep with state := LSMDepositState.pending, ibcSequenceId := "" }) := by
  have hD : ∀ dep ∈ depositsWithSeqId s (mkSeqId packet.sourceChannel packet.sequence),
      dep ∈ s.deposits ∧ dep.ibcSequenceId = mkSeqId packet.sourceChannel packet.sequence := by
    intro dep hmem
    have := List.mem_filter.mp hmem
    exact ⟨this.1, by simpa using this.2⟩
  -- frames of the deposit revert
  obtain ⟨hrevH, hrevL⟩ := revertDeposits_frame s
    (depositsWithSeqId s (mkSeqId packet.sourceChannel packet.sequence))
  -- events over the reverted deposits succeed
  obtain ⟨t, ht, htd, hth, htl⟩ := timeoutDepositEvents_ok
    (mkSeqId packet.sourceChannel packet.sequence)
    (depositsWithSeqId s (mkSeqId packet.sourceChannel packet.sequence))
    (revertDepositsState s (depositsWithSeqId s (mkSeqId packet.sourceChannel packet.sequence)))
    (by
      intro dep hmem
      rw [findChain_eq_of_hostChains _ s _ hrevH]
      exact hregD dep (hD dep hmem).1 (hD dep hmem).2)
  -- the LSM list computed on t equals the one computed on s
  have hLthis : lsmDepositsWithSeqId t (mkSeqId packet.sourceChannel packet.sequence)
      = lsmDepositsWithSeqId s (mkSeqId packet.sourceChannel packet.sequence) :=
    lsmDepositsWithSeqId_eq_of _ _ _ (htl.trans hrevL)
  have hL : ∀ dep ∈ lsmDepositsWithSeqId s (mkSeqId packet.sourceChannel packet.sequence),
      dep ∈ s.lsmDeposits ∧ dep.ibcSequenceId = mkSeqId packet.sourceChannel packet.sequence := by
    intro dep hmem
    have := List.mem_filter.mp hmem
    exact ⟨this.1, by simpa using this.2⟩
  obtain ⟨hrev2H, hrev2D⟩ := revertLSMDeposits_frame t
    (lsmDepositsWithSeqId s (mkSeqId packet.sourceChannel packet.sequence))
  obtain ⟨t2, ht2, ht2d, ht2h, ht2l⟩ := timeoutLSMDepositEvents_ok
    (mkSeqId packet.sourceChannel packet.sequence)
    (lsmDepositsWithSeqId s (mkSeqId packet.sourceChannel packet.sequence))
    (revertLSMDepositsState t (lsmDepositsWithSeqId s (mkSeqId packet.sourceChannel packet.sequence)))
    (by
      intro dep hmem
      rw [findChain_eq_of_hostChains _ s _ (hrev2H.trans (hth.trans hrevH))]
      exact hregL dep (hL dep hmem).1 (hL dep hmem).2)
  refine ⟨t2, ?_, ?_, ?_, ?_⟩
  · unfold OnTimeoutIBCTransferPacket
    rw [hdata]
    simp only [Bool.not_true, Bool.false_eq_true, if_false, hsender, beq_self_eq_true, if_true]
    rw [ht]
    simp only [except_bind_ok]
    rw [hLthis, ht2]
  · exact ht2h.trans (hrev2H.trans (hth.trans hrevH))
  · intro dep hmem heq
    rw [getDeposit_eq_of_deposits t2 (revertDepositsState s
      (depositsWithSeqId s (mkSeqId packet.sourceChannel packet.sequence)))
      dep.chainId dep.epoch (ht2d.trans (hrev2D.trans htd))]
    apply getDeposit_revert_mem
    · exact List.mem_filter.mpr ⟨hmem, by simp [heq]⟩
    · exact hndD.sublist ((List.filter_sublist _).map _)
  · intro dep hmem heq
    rw [getLSMDeposit_eq_of_lsmDeposits t2 (revertLSMDepositsState t
      (lsmDepositsWithSeqId s (mkSeqId packet.sourceChannel packet.sequence))) dep.id ht2l]
    apply getLSMDeposit_revert_mem
    · exact List.mem_filter.mpr ⟨hmem, by simp [heq]⟩
    · exact hndL.sublist ((List.filter_sublist _).map _)

/-- Witness for C3: timing out the sequence-7 deposit transfer reverts
the SENT deposit to PENDING with its sequence id cleared and leaves the
host chains unchanged. -/
theorem timeout_reverts_records_witness :
    ∃ s', OnTimeoutIBCTransferPacket fixStateSent depositTransferPacket false = .ok s'
      ∧ s'.hostChains = fixStateSent.hostChains
      ∧ (∀ dep ∈ fixStateSent.deposits,
          dep.ibcSequenceId = mkSeqId depositTransferPacket.sourceChannel depositTransferPacket.sequence →
          getDeposit s' dep.chainId dep.epoch =
            some { dep with state := DepositState.pending, ibcSequenceId := "" })
      ∧ (∀ dep ∈ fixStateSent.lsmDeposits,
          dep.ibcSequenceId = mkSeqId depositTransferPacket.sourceChannel depositTransferPacket.sequence →
          getLSMDeposit s' dep.id =
            some { dep with state := LSMDepositState.pending, ibcSequenceId := "" }) :=
  timeout_reverts_records fixStateSent depositTransferPacket _ rfl rfl
    (by decide) (by decide) (by decide) (by decide)

theorem foldl_submissionsFor {A : Type} (f : KeeperState → A → KeeperState) (l : List A)
    (t : KeeperState) (h : String)
    (hstep : ∀ u a, a ∈ l → submissionsFor (f u a) h = submissionsFor u h) :
    submissionsFor (l.foldl f t) h = submissionsFor t h := by
  induction l generalizing t with
  | nil => rfl
  | cons a as ih =>
    rw [List.foldl_cons, ih (f t a) (fun u b hb => hstep u b (List.mem_cons_of_mem a hb)),
      hstep t a (List.mem_cons_self a as)]

theorem submissionsFor_recordSubmission_ne (t : KeeperState) (sub : Submission) (h : String)
    (hne : sub.chainId ≠ h) :
    submissionsFor (recordSubmission t sub) h = submissionsFor t h := by
  unfold submissionsFor recordSubmission
  rw [List.filter_append]
  simp [hne]

theorem rewardsQueriesPart_submissions (env : Env) (t : KeeperState) (c : HostChain) :
    (rewardsQueriesPart env t c).submissions = t.submissions := by
  unfold rewardsQueriesPart
  cases c.rewardsAccount with
  | none => rfl
  | some ra =>
    by_cases hcs : (ra.channelState == ChannelState.created) = true
    · simp only [hcs, if_true]
      by_cases h1 : c.hasRewardParams = true <;>
        by_cases h2 : env.queryNonCompoundableBalanceOk c.chainId = true <;>
          by_cases h3 : env.queryRewardsBalanceOk c.chainId = true <;>
            simp [h1, h2, h3]
    · simp only [Bool.not_eq_true] at hcs
      simp [hcs]

theorem rewardsChainStep_submissionsFor (env : Env) (epoch : Int) (t : KeeperState)
    (c : HostChain) (h : String)
    (hcase : c.chainId = h → c.active = false ∨ ∀ v ∈ c.validators, ¬(0 < v.delegatedAmount)) :
    submissionsFor (rewardsChainStep env epoch t c) h = submissionsFor t h := by
  unfold rewardsChainStep
  by_cases hact : c.active = true
  · simp only [hact, Bool.not_true, Bool.false_eq_true, if_false]
    by_cases hch : c.chainId = h
    · have hval : ∀ v ∈ c.validators, ¬(0 < v.delegatedAmount) := by
        rcases hcase hch with hinact | hval
        · rw [hinact] at hact
          cases hact
        · exact hval
      have hmsg : rewardsMessages c = [] := by
        unfold rewardsMessages
        rw [List.filter_eq_nil_iff.mpr]
        · rfl
        · intro v hv
          simp only [decide_eq_true_eq]
          exact hval v hv
      simp only [hmsg, List.length_nil, lt_irrefl, if_false]
      unfold submissionsFor
      rw [rewardsQueriesPart_submissions]
    · split
      · cases hica : env.icaResult c.connectionId c.delegationAccount.owner (rewardsMessages c) with
        | none => rfl
        | some seq =>
          simp only [hica]
          unfold submissionsFor
          rw [rewardsQueriesPart_submissions]
          show (recordSubmission t _).submissions.filter _ = _
          unfold recordSubmission
          rw [List.filter_append]
          simp [hch]
      · unfold submissionsFor
        rw [rewardsQueriesPart_submissions]
  · simp only [Bool.not_eq_true] at hact
    simp [hact]

/-- C10: in the Rewards workflow, a host chain in which no validator has
a strictly positive delegated amount gets no remote batch transaction:
the batch submission is skipped entirely rather than submitting an empty
message list. -/
theorem rewards_skip_empty_batch (env : Env) (epoch : Int) (s : KeeperState) (h : String)
    (hval : ∀ c ∈ s.hostChains, c.chainId = h → ∀ v ∈ c.validators, ¬(0 < v.delegatedAmount)) :
    submissionsFor (RewardsWorkflow env epoch s) h = submissionsFor s h := by
  unfold RewardsWorkflow
  exact foldl_submissionsFor _ _ _ _
    (fun u a ha => rewardsChainStep_submissionsFor env epoch u a h
      (fun heq => Or.inr (hval a ha heq)))

/-- Witness for C10: the rewards workflow submits nothing for a chain
whose only validator has zero delegation. -/
theorem rewards_skip_empty_batch_witness :
    submissionsFor (RewardsWorkflow fixEnv 5 fixStateZeroVal) "chain-1"
      = submissionsFor fixStateZeroVal "chain-1" :=
  rewards_skip_empty_batch fixEnv 5 fixStateZeroVal "chain-1" (by decide)

theorem submissionsFor_eq_of (s t : KeeperState) (h : String)
    (heq : s.submissions = t.submissions) : submissionsFor s h = submissionsFor t h := by
  unfold submissionsFor
  rw [heq]

theorem submissionsFor_recordSubmission_ne2 (t : KeeperState) (cid : String)
    (dk : Option (String × Int)) (pl : SubPayload) (h : String) (hne : cid ≠ h) :
    submissionsFor (recordSubmission t ⟨cid, dk, pl⟩) h = submissionsFor t h := by
  unfold submissionsFor recordSubmission
  rw [List.filter_append]
  simp [hne]

theorem updateLSM_submissions (t : KeeperState) (ds : List LSMDeposit)
    (st : LSMDepositState) (q : String) :
    (updateLSMDepositsStateAndSequence t ds st q).submissions = t.submissions := by
  unfold updateLSMDepositsStateAndSequence
  exact foldl_field_const
    (fun acc d => setLSMDeposit acc { d with state := st, ibcSequenceId := q })
    KeeperState.submissions (fun u a => rfl) ds t

theorem lsmDepositSteps_submissionsFor (env : Env) (hc : HostChain) (h : String)
    (hne : hc.chainId ≠ h) (l : List LSMDeposit) :
    ∀ acc : KeeperState × Int,
      submissionsFor (l.foldl (lsmDepositStep env hc) acc).1 h = submissionsFor acc.1 h := by
  induction l with
  | nil => intro acc; rfl
  | cons a as ih =>
    intro acc
    rw [List.foldl_cons, ih]
    simp only [lsmDepositStep]
    split
    · rfl
    · exact submissionsFor_recordSubmission_ne2 _ _ _ _ _ hne
    · exact (submissionsFor_eq_of _ _ _ (updateLSM_submissions _ _ _ _)).trans
        (submissionsFor_recordSubmission_ne2 _ _ _ _ _ hne)

theorem lsmChainStep_submissionsFor (env : Env) (t : KeeperState) (c : HostChain) (h : String)
    (hcase : c.chainId = h → c.active = false) :
    submissionsFor (lsmChainStep env t c) h = submissionsFor t h := by
  by_cases hact : c.active = true
  · by_cases hlsm : c.flagsLsm = true
    · have hne : c.chainId ≠ h := fun heq => by
        rw [hcase heq] at hact
        cases hact
      unfold lsmChainStep
      simp only [hact, hlsm, Bool.not_true, Bool.or_self, Bool.false_eq_true, if_false]
      exact lsmDepositSteps_submissionsFor env c h hne _ _
    · simp only [Bool.not_eq_true] at hlsm
      unfold lsmChainStep
      simp [hact, hlsm]
  · simp only [Bool.not_eq_true] at hact
    unfold lsmChainStep
    simp [hact]

theorem undelegationStep_submissionsFor (env : Env) (epoch : Int) (t : KeeperState)
    (c : HostChain) (h : String)
    (hcase : c.chainId = h → c.active = false) :
    submissionsFor (undelegationStep env epoch t c) h = submissionsFor t h := by
  by_cases hact : c.active = true
  · have hne : c.chainId ≠ h := fun heq => by
      rw [hcase heq] at hact
      cases hact
    simp only [undelegationStep, hact, Bool.not_true, Bool.false_eq_true, if_false]
    split
    · rfl
    · split
      · rfl
      · split
        · rfl
        · split
          · rfl
          · split
            · rfl
            · exact submissionsFor_recordSubmission_ne2 _ _ _ _ _ hne
  · simp only [Bool.not_eq_true] at hact
    unfold undelegationStep
    simp [hact]

theorem vuValidatorSteps_submissionsFor (env : Env) (epoch : Int) (hc : HostChain) (h : String)
    (hne : hc.chainId ≠ h) (l : List Validator) :
    ∀ acc : KeeperState × Bool,
      submissionsFor (l.foldl (vuValidatorStep env epoch hc) acc).1 h = submissionsFor acc.1 h := by
  induction l with
  | nil => intro acc; rfl
  | cons a as ih =>
    intro acc
    rw [List.foldl_cons, ih]
    simp only [vuValidatorStep]
    split
    · rfl
    · split
      · split
        · rfl
        · exact submissionsFor_recordSubmission_ne2 _ _ _ _ _ hne
      · rfl

theorem vuChainSteps_submissionsFor (env : Env) (epoch : Int) (h : String) (l : List HostChain) :
    (∀ c ∈ l, c.chainId = h → c.active = false) →
    ∀ acc : KeeperState × Bool,
      submissionsFor (l.foldl (vuChainStep env epoch) acc).1 h = submissionsFor acc.1 h := by
  induction l with
  | nil => intro _ acc; rfl
  | cons a as ih =>
    intro hl acc
    rw [List.foldl_cons, ih (fun c hc => hl c (List.mem_cons_of_mem a hc))]
    simp only [vuChainStep]
    split
    · rfl
    · split
      · rfl
      · next hnact =>
        split
        · rfl
        · have hact : a.active = true := by simpa using hnact
          have hne : a.chainId ≠ h := fun heq => by
            rw [hl a (List.mem_cons_self a as) heq] at hact
            cases hact
          exact vuValidatorSteps_submissionsFor env epoch a h hne a.validators acc

theorem depositStep_inactive (env : Env) (epoch : Int) (h : String) (t : KeeperState) (d : Deposit)
    (hin : ∀ c ∈ t.hostChains, c.chainId = h → c.active = false) :
    submissionsFor (depositStep env epoch t d) h = submissionsFor t h
      ∧ (depositStep env epoch t d).hostChains = t.hostChains := by
  simp only [depositStep]
  cases hfc : findChain t d.chainId with
  | none => exact ⟨rfl, rfl⟩
  | some hc =>
    simp only []
    split
    · split
      · exact ⟨rfl, rfl⟩
      · exact ⟨rfl, rfl⟩
    · split
      · exact ⟨rfl, rfl⟩
      · next hnact =>
        have hact : hc.active = true := by simpa using hnact
        have hne : hc.chainId ≠ h := fun heq => by
          rw [hin hc (findChain_mem t d.chainId hc hfc) heq] at hact
          cases hact
        split
        · exact ⟨rfl, rfl⟩
        · exact ⟨submissionsFor_recordSubmission_ne2 _ _ _ _ _ hne, rfl⟩
        · exact ⟨submissionsFor_recordSubmission_ne2 _ _ _ _ _ hne, rfl⟩

theorem depositSteps_inactive (env : Env) (epoch : Int) (h : String) (l : List Deposit) :
    ∀ t : KeeperState, (∀ c ∈ t.hostChains, c.chainId = h → c.active = false) →
      submissionsFor (l.foldl (depositStep env epoch) t) h = submissionsFor t h
        ∧ (l.foldl (depositStep env epoch) t).hostChains = t.hostChains := by
  induction l with
  | nil => exact fun t _ => ⟨rfl, rfl⟩
  | cons a as ih =>
    intro t hin
    obtain ⟨h1, h2⟩ := depositStep_inactive env epoch h t a hin
    obtain ⟨h3, h4⟩ := ih (depositStep env epoch t a) (by rw [h2]; exact hin)
    exact ⟨by rw [List.foldl_cons, h3, h1], by rw [List.foldl_cons, h4, h2]⟩

/-- C1 (amended): for every host chain whose Active flag is false, no
outbound remote message is generated for that chain by the Deposit, LSM,
Undelegation, Validator Lifecycle and Rewards workflows during an epoch
tick. (The Rebalance workflow is excluded: it performs no Active check —
see the counterexample.) -/
theorem inactive_chain_no_messages (env : Env) (epoch : Int) (s : KeeperState) (h : String)
    (hin : ∀ c ∈ s.hostChains, c.chainId = h → c.active = false) :
    submissionsFor (DepositWorkflow env epoch s) h = submissionsFor s h
      ∧ submissionsFor (LSMWorkflow env s) h = submissionsFor s h
      ∧ submissionsFor (UndelegationWorkflow env epoch s) h = submissionsFor s h
      ∧ submissionsFor (ValidatorUndelegationWorkflow env epoch s) h = submissionsFor s h
      ∧ submissionsFor (RewardsWorkflow env epoch s) h = submissionsFor s h := by
  refine ⟨?_, ?_, ?_, ?_, ?_⟩
  · exact (depositSteps_inactive env epoch h _ s hin).1
  · exact foldl_submissionsFor _ _ _ _
      (fun u a ha => lsmChainStep_submissionsFor env u a h (hin a ha))
  · exact foldl_submissionsFor _ _ _ _
      (fun u a ha => undelegationStep_submissionsFor env epoch u a h (hin a ha))
  · exact vuChainSteps_submissionsFor env epoch h s.hostChains hin (s, false)
  · exact foldl_submissionsFor _ _ _ _
      (fun u a ha => rewardsChainStep_submissionsFor env epoch u a h
        (fun heq => Or.inl (hin a ha heq)))

/-- C1 counterexample: the Rebalance workflow submits a redelegate
message for a chain whose Active flag is false (it never checks the
flag), so the claim as stated — covering the Rebalance pipeline — is
false. -/
theorem rebalance_inactive_chain_counterexample :
    inactiveChain.active = false
      ∧ submissionsFor (RebalanceWorkflow rebalEnv 1 inactiveState) "chain-2"
          = [⟨"chain-2", none, SubPayload.ica "connection-0" "pstake-owner-1"
              [RemoteMsg.redelegate "cosmos1deleg" "cosmosvaloper1" "cosmosvaloper2"
                { denom := "uatom", amount := 5 }]⟩] :=
  ⟨rfl, rfl⟩

/-- Witness for the amended C1 at the concrete inactive chain. -/
theorem inactive_chain_no_messages_witness :
    submissionsFor (DepositWorkflow fixEnv 5 inactiveState) "chain-2" = submissionsFor inactiveState "chain-2"
      ∧ submissionsFor (LSMWorkflow fixEnv inactiveState) "chain-2" = submissionsFor inactiveState "chain-2"
      ∧ submissionsFor (UndelegationWorkflow fixEnv 5 inactiveState) "chain-2" = submissionsFor inactiveState "chain-2"
      ∧ submissionsFor (ValidatorUndelegationWorkflow fixEnv 5 inactiveState) "chain-2" = submissionsFor inactiveState "chain-2"
      ∧ submissionsFor (RewardsWorkflow fixEnv 5 inactiveState) "chain-2" = submissionsFor inactiveState "chain-2" :=
  inactive_chain_no_messages fixEnv 5 inactiveState "chain-2" (by decide)

theorem vuValidatorStep_id (env : Env) (epoch : Int) (hc : HostChain)
    (acc : KeeperState × Bool) (v : Validator) (h : acc.2 = true) :
    vuValidatorStep env epoch hc acc v = acc := by
  unfold vuValidatorStep
  simp [h]

theorem vuChainStep_id (env : Env) (epoch : Int) (acc : KeeperState × Bool) (hc : HostChain)
    (h : acc.2 = true) : vuChainStep env epoch acc hc = acc := by
  unfold vuChainStep
  simp [h]

/-- C8 (amended): in the Validator Lifecycle Manager, a failed remote
force-undelegation submission aborts the ENTIRE workflow invocation: the
failing validator's step sets the abort flag, and once the flag is set
no further validators of that chain and no remaining host chains are
processed in that tick. -/
theorem vu_submission_failure_aborts_workflow (env : Env) (epoch : Int) :
    (∀ (hc : HostChain) (t : KeeperState) (v : Validator),
      (0 < v.unbondingEpoch ∧ v.unbondingEpoch + UnbondingStateEpochLimit ≤ epoch) →
      env.icaResult hc.connectionId hc.delegationAccount.owner
        [RemoteMsg.undelegate hc.delegationAccount.address v.operatorAddress
          { denom := hc.hostDenom, amount := v.delegatedAmount }] = none →
      vuValidatorStep env epoch hc (t, false) v = (t, true))
    ∧ (∀ (hc : HostChain) (acc : KeeperState × Bool) (l : List Validator), acc.2 = true →
        l.foldl (vuValidatorStep env epoch hc) acc = acc)
    ∧ (∀ (acc : KeeperState × Bool) (l : List HostChain), acc.2 = true →
        l.foldl (vuChainStep env epoch) acc = acc)
    ∧ (∀ s : KeeperState, ValidatorUndelegationWorkflow env epoch s
        = (s.hostChains.foldl (vuChainStep env epoch) (s, false)).1) := by
  refine ⟨?_, ?_, ?_, fun s => rfl⟩
  · intro hc t v hcond hica
    unfold vuValidatorStep
    simp only [if_pos hcond, Bool.false_eq_true, if_false]
    rw [hica]
  · intro hc acc l h
    induction l with
    | nil => rfl
    | cons a as ih =>
      rw [List.foldl_cons, vuValidatorStep_id env epoch hc acc a h]
      exact ih
  · intro acc l h
    induction l with
    | nil => rfl
    | cons a as ih =>
      rw [List.foldl_cons, vuChainStep_id env epoch acc a h]
      exact ih

/-- Witness for the amended C8 at the concrete two-chain scenario. -/
theorem vu_submission_failure_aborts_workflow_witness :
    vuValidatorStep vuEnv 5 vuChainA (vuState, false) vuValA = (vuState, true)
      ∧ List.foldl (vuChainStep vuEnv 5) (vuState, true) [vuChainB] = (vuState, true) := by
  obtain ⟨h1, h2, h3, h4⟩ := vu_submission_failure_aborts_workflow vuEnv 5
  exact ⟨h1 vuChainA vuState vuValA (by decide) rfl, h3 (vuState, true) [vuChainB] rfl⟩

/-- C8 counterexample: chain-A's submission fails, and although chain-B
is active, on an unbonding epoch, has an eligible validator and its own
submission would succeed, no ValidatorUnbonding record is created at
all — the workflow does NOT proceed to the remaining host chains. -/
theorem vu_abort_skips_remaining_chains_counterexample :
    vuChainB.active = true
      ∧ (0 < vuValA.unbondingEpoch ∧ vuValA.unbondingEpoch + UnbondingStateEpochLimit ≤ 5)
      ∧ IsUnbondingEpoch vuChainB.unbondingFactor 5 = true
      ∧ vuEnv.icaResult vuChainB.connectionId vuChainB.delegationAccount.owner
          [RemoteMsg.undelegate vuChainB.delegationAccount.address vuValA.operatorAddress
            { denom := vuChainB.hostDenom, amount := vuValA.delegatedAmount }] = some "seq-B"
      ∧ (ValidatorUndelegationWorkflow vuEnv 5 vuState).validatorUnbondings = [] :=
  ⟨rfl, by decide, by decide, rfl, by decide⟩

theorem submissionsForDeposit_recordSubmission_ne (t : KeeperState) (cid : String)
    (dk : Option (String × Int)) (pl : SubPayload) (k : String × Int) (hne : dk ≠ some k) :
    submissionsForDeposit (recordSubmission t ⟨cid, dk, pl⟩) k = submissionsForDeposit t k := by
  unfold submissionsForDeposit recordSubmission
  rw [List.filter_append]
  simp [hne]

theorem submissionsForDeposit_eq_of (s t : KeeperState) (k : String × Int)
    (heq : s.submissions = t.submissions) :
    submissionsForDeposit s k = submissionsForDeposit t k := by
  unfold submissionsForDeposit
  rw [heq]

theorem depositStep_other_key (env : Env) (E : Int) (t : KeeperState) (a : Deposit)
    (k : String × Int) (hne : (a.chainId, a.epoch) ≠ k) :
    getDeposit (depositStep env E t a) k.1 k.2 = getDeposit t k.1 k.2
      ∧ (depositStep env E t a).hostChains = t.hostChains
      ∧ submissionsForDeposit (depositStep env E t a) k = submissionsForDeposit t k := by
  have hkey : ¬(a.chainId = k.1 ∧ a.epoch = k.2) := by
    rintro ⟨h1, h2⟩
    exact hne (by rw [h1, h2])
  simp only [depositStep]
  cases hfc : findChain t a.chainId with
  | none => exact ⟨rfl, rfl, rfl⟩
  | some hc =>
    simp only []
    split
    · split
      · exact ⟨getDeposit_deleteDeposit_ne t a k.1 k.2 hkey, rfl, rfl⟩
      · exact ⟨rfl, rfl, rfl⟩
    · split
      · exact ⟨rfl, rfl, rfl⟩
      · split
        · exact ⟨rfl, rfl, rfl⟩
        · exact ⟨rfl, rfl,
            submissionsForDeposit_recordSubmission_ne _ _ _ _ _ (by simp [hne])⟩
        · refine ⟨getDeposit_setDeposit_ne _ _ k.1 k.2 hkey, rfl, ?_⟩
          exact (submissionsForDeposit_eq_of _ (recordSubmission t _) _ rfl).trans
            (submissionsForDeposit_recordSubmission_ne _ _ _ _ _ (by simp [hne]))

theorem depositSteps_other_key (env : Env) (E : Int) (l : List Deposit) (k : String × Int)
    (hl : ∀ a ∈ l, (a.chainId, a.epoch) ≠ k) :
    ∀ t : KeeperState,
      getDeposit (l.foldl (depositStep env E) t) k.1 k.2 = getDeposit t k.1 k.2
        ∧ (l.foldl (depositStep env E) t).hostChains = t.hostChains
        ∧ submissionsForDeposit (l.foldl (depositStep env E) t) k = submissionsForDeposit t k := by
  induction l with
  | nil => exact fun t => ⟨rfl, rfl, rfl⟩
  | cons a as ih =>
    intro t
    obtain ⟨h1, h2, h3⟩ := depositStep_other_key env E t a k (hl a (List.mem_cons_self a as))
    obtain ⟨h4, h5, h6⟩ := ih (fun x hx => hl x (List.mem_cons_of_mem a hx)) (depositStep env E t a)
    exact ⟨by rw [List.foldl_cons, h4, h1], by rw [List.foldl_cons, h5, h2],
      by rw [List.foldl_cons, h6, h3]⟩

theorem depositStep_nonpositive (env : Env) (E : Int) (t : KeeperState) (d : Deposit)
    (hc : HostChain) (hfc : findChain t d.chainId = some hc) (hamt : d.amount.amount ≤ 0) :
    depositStep env E t d = if d.epoch < E then deleteDeposit t d else t := by
  simp only [depositStep]
  rw [hfc]
  simp [hamt]

theorem find?_of_mem_nodup {A K : Type} [DecidableEq K] (key : A → K) (p : A → Bool)
    (l : List A) (d : A)
    (hmem : d ∈ l) (hnd : (l.map key).Nodup)
    (hpd : p d = true) (hp : ∀ e, p e = true → key e = key d) :
    l.find? p = some d := by
  induction l with
  | nil => cases hmem
  | cons a as ih =>
    simp only [List.map_cons, List.nodup_cons, List.mem_map] at hnd
    rcases List.mem_cons.mp hmem with rfl | hmem'
    · simp [List.find?_cons, hpd]
    · cases hpa : p a with
      | true =>
        exfalso
        apply hnd.1
        exact ⟨d, hmem', (hp a hpa).symm⟩
      | false =>
        simp only [List.find?_cons, hpa]
        exact ih hmem' hnd.2

theorem getDeposit_of_mem_nodup (s : KeeperState) (d : Deposit)
    (hmem : d ∈ s.deposits)
    (hnd : (s.deposits.map (fun x => (x.chainId, x.epoch))).Nodup) :
    getDeposit s d.chainId d.epoch = some d := by
  unfold getDeposit
  apply find?_of_mem_nodup (fun x => (x.chainId, x.epoch)) _ _ _ hmem hnd
  · simp
  · intro e he
    simp only [Bool.and_eq_true, beq_iff_eq] at he
    rw [he.1, he.2]

/-- C9: in the Deposit workflow run at epoch E, a pending deposit
(epoch ≤ E) of a registered chain whose amount is ≤ 0 is deleted if and
only if its epoch is strictly less than E; a non-positive deposit whose
epoch equals E is left in place unchanged, and in either case no
transfer message is submitted for it. -/
theorem deposit_nonpositive_prune (env : Env) (E : Int) (s : KeeperState) (d : Deposit) (hc : HostChain)
    (hmem : d ∈ s.deposits)
    (hpend : d.state = DepositState.pending)
    (hep : d.epoch ≤ E)
    (hchain : findChain s d.chainId = some hc)
    (hamt : d.amount.amount ≤ 0)
    (hnd : (s.deposits.map (fun x => (x.chainId, x.epoch))).Nodup) :
    (getDeposit (DepositWorkflow env E s) d.chainId d.epoch = none ↔ d.epoch < E)
      ∧ (d.epoch = E → getDeposit (DepositWorkflow env E s) d.chainId d.epoch = some d)
      ∧ submissionsForDeposit (DepositWorkflow env E s) (d.chainId, d.epoch)
          = submissionsForDeposit s (d.chainId, d.epoch) := by
  have hmemP : d ∈ pendingDepositsBeforeEpoch s E := by
    unfold pendingDepositsBeforeEpoch
    exact List.mem_filter.mpr ⟨hmem, by simp [hpend, hep]⟩
  have hndP : ((pendingDepositsBeforeEpoch s E).map (fun x => (x.chainId, x.epoch))).Nodup :=
    hnd.sublist ((List.filter_sublist _).map _)
  obtain ⟨l₁, l₂, hsplit⟩ := List.append_of_mem hmemP
  have hkey12 : (∀ a ∈ l₁, (a.chainId, a.epoch) ≠ (d.chainId, d.epoch))
      ∧ (∀ a ∈ l₂, (a.chainId, a.epoch) ≠ (d.chainId, d.epoch)) := by
    rw [hsplit] at hndP
    simp only [List.map_append, List.map_cons] at hndP
    have hmid := (List.nodup_cons.mp (List.nodup_middle.mp hndP)).1
    constructor
    · intro a ha heq
      exact hmid (List.mem_append.mpr (Or.inl (heq ▸ List.mem_map_of_mem _ ha)))
    · intro a ha heq
      exact hmid (List.mem_append.mpr (Or.inr (heq ▸ List.mem_map_of_mem _ ha)))
  have hwf : DepositWorkflow env E s
      = l₂.foldl (depositStep env E) (depositStep env E (l₁.foldl (depositStep env E) s) d) := by
    unfold DepositWorkflow
    rw [hsplit, List.foldl_append, List.foldl_cons]
  obtain ⟨g1, g2, g3⟩ := depositSteps_other_key env E l₁ (d.chainId, d.epoch) hkey12.1 s
  have hfc1 : findChain (l₁.foldl (depositStep env E) s) d.chainId = some hc := by
    rw [findChain_eq_of_hostChains _ s _ g2]
    exact hchain
  have hstep := depositStep_nonpositive env E (l₁.foldl (depositStep env E) s) d hc hfc1 hamt
  by_cases hlt : d.epoch < E
  · rw [if_pos hlt] at hstep
    obtain ⟨g4, g5, g6⟩ := depositSteps_other_key env E l₂ (d.chainId, d.epoch) hkey12.2
      (deleteDeposit (l₁.foldl (depositStep env E) s) d)
    refine ⟨?_, ?_, ?_⟩
    · rw [hwf, hstep]
      show getDeposit (l₂.foldl (depositStep env E) _) d.chainId d.epoch = none ↔ d.epoch < E
      rw [g4, getDeposit_deleteDeposit_self _ _ _ _ rfl rfl]
      simp [hlt]
    · intro hE
      exact absurd hE (by omega)
    · rw [hwf, hstep]
      show submissionsForDeposit (l₂.foldl (depositStep env E) _) (d.chainId, d.epoch) = _
      rw [g6]
      exact (submissionsForDeposit_eq_of _ _ _ rfl).trans g3
  · rw [if_neg hlt] at hstep
    obtain ⟨g4, g5, g6⟩ := depositSteps_other_key env E l₂ (d.chainId, d.epoch) hkey12.2
      (l₁.foldl (depositStep env E) s)
    have hkeep : getDeposit (DepositWorkflow env E s) d.chainId d.epoch = some d := by
      rw [hwf, hstep]
      show getDeposit (l₂.foldl (depositStep env E) _) d.chainId d.epoch = some d
      rw [g4, g1]
      exact getDeposit_of_mem_nodup s d hmem hnd
    refine ⟨?_, fun _ => hkeep, ?_⟩
    · rw [hkeep]
      constructor
      · intro hcontra
        cases hcontra
      · intro hcontra
        exact absurd hcontra hlt
    · rw [hwf, hstep]
      show submissionsForDeposit (l₂.foldl (depositStep env E) _) (d.chainId, d.epoch) = _
      rw [g6, g3]

/-- Witness for C9: at epoch 5 the zero-amount epoch-4 deposit is
pruned (4 < 5) and no transfer is submitted for it. -/
theorem deposit_nonpositive_prune_witness :
    (getDeposit (DepositWorkflow fixEnv 5 fixStateZeroDep) zeroDeposit.chainId zeroDeposit.epoch
        = none ↔ zeroDeposit.epoch < 5)
      ∧ (zeroDeposit.epoch = (5 : Int) →
          getDeposit (DepositWorkflow fixEnv 5 fixStateZeroDep) zeroDeposit.chainId zeroDeposit.epoch
            = some zeroDeposit)
      ∧ submissionsForDeposit (DepositWorkflow fixEnv 5 fixStateZeroDep)
            (zeroDeposit.chainId, zeroDeposit.epoch)
          = submissionsForDeposit fixStateZeroDep (zeroDeposit.chainId, zeroDeposit.epoch) :=
  deposit_nonpositive_prune fixEnv 5 fixStateZeroDep zeroDeposit fixChain
    (by decide) rfl (by decide) rfl (by decide) (by decide)

theorem undelegationStep_other (env : Env) (epoch : Int) (t : KeeperState) (c : HostChain)
    (x : String) (ep : Int) (hne : c.chainId ≠ x) :
    getUnbonding (undelegationStep env epoch t c) x ep = getUnbonding t x ep := by
  simp only [undelegationStep]
  split
  · rfl
  · split
    · rfl
    · split
      · rfl
      · next u heq =>
        have hcid := (getUnbonding_key t c.chainId _ u heq).1
        have hkey : ¬(u.chainId = x ∧ u.epochNumber = ep) := by
          rintro ⟨h1, -⟩
          exact hne (hcid ▸ h1)
        split
        · rfl
        · split
          · exact getUnbonding_setUnbonding_ne t _ x ep hkey
          · split
            · exact getUnbonding_setUnbonding_ne t _ x ep hkey
            · exact getUnbonding_setUnbonding_ne _ _ x ep hkey

theorem undelegationStep_events_mono (env : Env) (epoch : Int) (t : KeeperState) (c : HostChain) :
    ∃ es, (undelegationStep env epoch t c).events = t.events ++ es := by
  simp only [undelegationStep]
  split
  · exact ⟨[], (List.append_nil _).symm⟩
  · split
    · exact ⟨[], (List.append_nil _).symm⟩
    · split
      · exact ⟨[], (List.append_nil _).symm⟩
      · split
        · exact ⟨[], (List.append_nil _).symm⟩
        · split
          · exact ⟨[Event.unsuccessfulUndelegationInitiation c.chainId epoch], rfl⟩
          · split
            · exact ⟨[Event.unsuccessfulUndelegationInitiation c.chainId epoch], rfl⟩
            · next seqId _ =>
              exact ⟨[Event.undelegationWorkflow c.chainId epoch seqId], rfl⟩

theorem undelegationSteps_other (env : Env) (epoch : Int) (x : String) (ep : Int)
    (l : List HostChain) (hl : ∀ c ∈ l, c.chainId ≠ x) :
    ∀ t : KeeperState,
      getUnbonding (l.foldl (undelegationStep env epoch) t) x ep = getUnbonding t x ep := by
  induction l with
  | nil => exact fun t => rfl
  | cons a as ih =>
    intro t
    rw [List.foldl_cons, ih (fun c hc => hl c (List.mem_cons_of_mem a hc)),
      undelegationStep_other env epoch t a x ep (hl a (List.mem_cons_self a as))]

theorem undelegationSteps_events_mono (env : Env) (epoch : Int) (l : List HostChain)
    (e : Event) : ∀ t : KeeperState, e ∈ t.events →
      e ∈ (l.foldl (undelegationStep env epoch) t).events := by
  induction l with
  | nil => exact fun t h => h
  | cons a as ih =>
    intro t h
    rw [List.foldl_cons]
    apply ih
    obtain ⟨es, hes⟩ := undelegationStep_events_mono env epoch t a
    rw [hes]
    exact List.mem_append_left es h

theorem undelegationStep_fires (env : Env) (epoch : Int) (t : KeeperState) (hc : HostChain)
    (u : Unbonding)
    (hact : hc.active = true)
    (hue : IsUnbondingEpoch hc.unbondingFactor epoch = true)
    (hu : getUnbonding t hc.chainId (CurrentUnbondingEpoch hc.unbondingFactor epoch) = some u)
    (hpos : 0 < u.unbondAmount.amount) :
    (env.genUndelegateMessages hc u.unbondAmount.amount = none →
      undelegationStep env epoch t hc
        = emitEvent (setUnbonding t { u with state := UnbondingState.failed })
            (Event.unsuccessfulUndelegationInitiation hc.chainId epoch))
    ∧ (∀ msgs, env.genUndelegateMessages hc u.unbondAmount.amount = some msgs →
        (env.icaResult hc.connectionId hc.delegationAccount.owner msgs = none →
          undelegationStep env epoch t hc
            = emitEvent (setUnbonding t { u with state := UnbondingState.failed })
                (Event.unsuccessfulUndelegationInitiation hc.chainId epoch))
        ∧ (∀ seqId, env.icaResult hc.connectionId hc.delegationAccount.owner msgs = some seqId →
            undelegationStep env epoch t hc
              = emitEvent
                  (setUnbonding
                    (recordSubmission t
                      ⟨hc.chainId, none, .ica hc.connectionId hc.delegationAccount.owner msgs⟩)
                    { u with ibcSequenceId := seqId, state := UnbondingState.initiated })
                  (Event.undelegationWorkflow hc.chainId epoch seqId))) := by
  have hposd : (0 < u.unbondAmount.amount) = True := eq_true hpos
  refine ⟨?_, ?_⟩
  · intro hgen
    simp only [undelegationStep, hact, hue, Bool.not_true, Bool.false_eq_true, if_false,
      hu, hposd, decide_True, if_false, hgen]
  · intro msgs hgen
    constructor
    · intro hica
      simp only [undelegationStep, hact, hue, Bool.not_true, Bool.false_eq_true, if_false,
        hu, hposd, decide_True, hgen, hica]
    · intro seqId hica
      simp only [undelegationStep, hact, hue, Bool.not_true, Bool.false_eq_true, if_false,
        hu, hposd, decide_True, hgen, hica]

/-- C6: in the Undelegation workflow, for every active chain on its
unbonding epoch whose epoch unbonding record exists with positive
amount: failure to generate the undelegate messages or to submit the
remote transaction sets that record's state to FAILED and emits an
event, while the workflow's per-chain structure leaves every other
chain's processing intact (the theorem holds for each chain regardless
of the other chains in the state); on success the record becomes
INITIATED carrying the new sequence identifier. -/
theorem undelegation_record_outcome (env : Env) (epoch : Int) (s : KeeperState) (hc : HostChain) (u : Unbonding)
    (hnd : (s.hostChains.map HostChain.chainId).Nodup)
    (hmem : hc ∈ s.hostChains)
    (hact : hc.active = true)
    (hue : IsUnbondingEpoch hc.unbondingFactor epoch = true)
    (hu : getUnbonding s hc.chainId (CurrentUnbondingEpoch hc.unbondingFactor epoch) = some u)
    (hpos : 0 < u.unbondAmount.amount) :
    (env.genUndelegateMessages hc u.unbondAmount.amount = none →
      getUnbonding (UndelegationWorkflow env epoch s) hc.chainId
          (CurrentUnbondingEpoch hc.unbondingFactor epoch)
        = some { u with state := UnbondingState.failed }
      ∧ Event.unsuccessfulUndelegationInitiation hc.chainId epoch
          ∈ (UndelegationWorkflow env epoch s).events)
    ∧ (∀ msgs, env.genUndelegateMessages hc u.unbondAmount.amount = some msgs →
        (env.icaResult hc.connectionId hc.delegationAccount.owner msgs = none →
          getUnbonding (UndelegationWorkflow env epoch s) hc.chainId
              (CurrentUnbondingEpoch hc.unbondingFactor epoch)
            = some { u with state := UnbondingState.failed }
          ∧ Event.unsuccessfulUndelegationInitiation hc.chainId epoch
              ∈ (UndelegationWorkflow env epoch s).events)
        ∧ (∀ seqId, env.icaResult hc.connectionId hc.delegationAccount.owner msgs = some seqId →
            getUnbonding (UndelegationWorkflow env epoch s) hc.chainId
                (CurrentUnbondingEpoch hc.unbondingFactor epoch)
              = some { u with ibcSequenceId := seqId, state := UnbondingState.initiated }
            ∧ Event.undelegationWorkflow hc.chainId epoch seqId
                ∈ (UndelegationWorkflow env epoch s).events)) := by
  obtain ⟨l₁, l₂, hsplit⟩ := List.append_of_mem hmem
  have hndP := hnd
  rw [hsplit] at hndP
  simp only [List.map_append, List.map_cons] at hndP
  have hmid := (List.nodup_cons.mp (List.nodup_middle.mp hndP)).1
  have hne1 : ∀ c ∈ l₁, c.chainId ≠ hc.chainId := by
    intro c h1 heq
    exact hmid (List.mem_append.mpr (Or.inl (heq ▸ List.mem_map_of_mem _ h1)))
  have hne2 : ∀ c ∈ l₂, c.chainId ≠ hc.chainId := by
    intro c h1 heq
    exact hmid (List.mem_append.mpr (Or.inr (heq ▸ List.mem_map_of_mem _ h1)))
  have hwf : UndelegationWorkflow env epoch s
      = l₂.foldl (undelegationStep env epoch)
          (undelegationStep env epoch (l₁.foldl (undelegationStep env epoch) s) hc) := by
    unfold UndelegationWorkflow
    rw [hsplit, List.foldl_append, List.foldl_cons]
  have hu1 : getUnbonding (l₁.foldl (undelegationStep env epoch) s) hc.chainId
      (CurrentUnbondingEpoch hc.unbondingFactor epoch) = some u := by
    rw [undelegationSteps_other env epoch hc.chainId _ l₁ hne1 s]
    exact hu
  obtain ⟨case1, case2⟩ := undelegationStep_fires env epoch
    (l₁.foldl (undelegationStep env epoch) s) hc u hact hue hu1 hpos
  have hfinish : ∀ (u' : Unbonding) (ev : Event) (t' : KeeperState),
      undelegationStep env epoch (l₁.foldl (undelegationStep env epoch) s) hc
        = emitEvent (setUnbonding t' u') ev →
      u'.chainId = hc.chainId →
      u'.epochNumber = CurrentUnbondingEpoch hc.unbondingFactor epoch →
      getUnbonding (UndelegationWorkflow env epoch s) hc.chainId
          (CurrentUnbondingEpoch hc.unbondingFactor epoch) = some u'
        ∧ ev ∈ (UndelegationWorkflow env epoch s).events := by
    intro u' ev t' hstep hk1 hk2
    constructor
    · rw [hwf, hstep, undelegationSteps_other env epoch hc.chainId _ l₂ hne2]
      show getUnbonding (setUnbonding t' u') hc.chainId _ = some u'
      exact getUnbonding_setUnbonding_self t' u' _ _ hk1 hk2
    · rw [hwf, hstep]
      apply undelegationSteps_events_mono
      show ev ∈ (setUnbonding t' u').events ++ [ev]
      exact List.mem_append_right _ (List.mem_singleton.mpr rfl)
  obtain ⟨hk1, hk2⟩ := getUnbonding_key s hc.chainId _ u hu
  refine ⟨?_, ?_⟩
  · intro hgen
    exact hfinish _ _ _ (case1 hgen) hk1 hk2
  · intro msgs hgen
    obtain ⟨c2a, c2b⟩ := case2 msgs hgen
    constructor
    · intro hica
      exact hfinish _ _ _ (c2a hica) hk1 hk2
    · intro seqId hica
      exact hfinish _ _ _ (c2b seqId hica) hk1 hk2

/-- Witness for C6: in a two-chain state where the sibling chain's
submission fails, chain-B's record still reaches INITIATED with the new
sequence id — the workflow continued past the failing chain. -/
theorem undelegation_record_outcome_witness :
    getUnbonding (UndelegationWorkflow u6Env 5 u6State) u6ChainB.chainId
        (CurrentUnbondingEpoch u6ChainB.unbondingFactor 5)
      = some { u6UnbondingB with ibcSequenceId := "seq-6", state := UnbondingState.initiated }
    ∧ Event.undelegationWorkflow u6ChainB.chainId 5 "seq-6"
        ∈ (UndelegationWorkflow u6Env 5 u6State).events := by
  obtain ⟨-, h2⟩ := undelegation_record_outcome u6Env 5 u6State u6ChainB u6UnbondingB
    (by decide) (by decide) rfl (by decide) (by decide) (by decide)
  exact (h2 _ rfl).2 "seq-6" rfl
